import Mathlib

/-!
# Verification of the code-graph symbol store, extractors and resolver

This file gives a shallow embedding, in Lean 4, of the core of the
`code-graph` tool: the relational store over graph nodes and edges
(`src/db/schema.ts`), the stable id scheme shared by all extractors
(`src/parsers/base.ts`), the import/call extraction logic of the three
language extractors (`src/parsers/typescript.ts`, `src/parsers/python.ts`,
`src/parsers/java.ts`), the cross-file reference resolver
(`src/resolver/index.ts`) and the token-budgeted context assembler
(`getEditingContext` in `src/db/schema.ts` together with
`src/utils/token-estimator.ts`).

The SQLite store is modelled functionally: the `nodes` and `edges` tables
become Lean lists, SQL row operations become list operations.  The free-form
JSON metadata column is modelled by a structure carrying the metadata keys the
core reads or writes, plus an opaque remainder that every operation preserves.
JavaScript string and number operations are modelled exactly (first-occurrence
`replace`, negative-index `slice`, `Math.floor` on negatives as flooring
division); the fractional constants 0.6/0.3/0.5/0.8 are modelled as exact
rationals.
-/

/-! ## JavaScript / SQLite string primitives -/

/-- JS `String.prototype.startsWith`, on char lists. -/
def strStartsWith (s p : String) : Bool :=
  s.toList.take p.toList.length == p.toList

/-- ASCII lower-casing of one character (JS `toLowerCase` / SQLite `LIKE`
case folding act this way on ASCII; the ids and placeholders used by the
store are ASCII). -/
def asciiLower (c : Char) : Char :=
  if 'A' ≤ c ∧ c ≤ 'Z' then Char.ofNat (c.toNat + 32) else c

/-- ASCII upper-casing of one character (JS `toUpperCase` on ASCII). -/
def asciiUpper (c : Char) : Char :=
  if 'a' ≤ c ∧ c ≤ 'z' then Char.ofNat (c.toNat - 32) else c

/-- JS `String.prototype.toLowerCase`, restricted to ASCII case mapping. -/
def jsToLower (s : String) : String :=
  ⟨s.toList.map asciiLower⟩

/-- JS `String.prototype.toUpperCase`, restricted to ASCII case mapping. -/
def jsToUpper (s : String) : String :=
  ⟨s.toList.map asciiUpper⟩

/-- The SQL predicate `target_id LIKE 'ref:%'` as issued by
`getUnresolvedEdges` / `getResolutionStats` / `getResolvedCalleesOf` in
`src/db/schema.ts`.  SQLite's `LIKE` is case-insensitive on ASCII by default
(the schema sets no `case_sensitive_like` pragma), so the test matches any
ASCII-case variant of the `ref:` prefix. -/
def likeRef (s : String) : Bool :=
  (s.toList.take 4).map asciiLower == ['r', 'e', 'f', ':']

/-- Substring containment on char lists: `pat` occurs contiguously in the
second argument. -/
def listInfixOf (pat : List Char) : List Char → Bool
  | [] => pat.isEmpty
  | c :: cs => (c :: cs).take pat.length == pat || listInfixOf pat cs

/-- SQL `name LIKE '%q%'`: case-insensitive (ASCII) substring containment,
used by `searchNodes`. -/
def likeContains (s q : String) : Bool :=
  listInfixOf (q.toList.map asciiLower) (s.toList.map asciiLower)

/-- JS `String.prototype.includes` (exact substring containment). -/
def strIncludes (s sub : String) : Bool :=
  listInfixOf sub.toList s.toList

/-- JS `String.prototype.replace(pat, rep)` with a string pattern:
replaces the first occurrence only.  On char lists. -/
def replaceFirstAux (pat rep : List Char) : List Char → List Char
  | [] => if pat.isEmpty then rep else []
  | c :: cs =>
    if (c :: cs).take pat.length == pat then
      rep ++ (c :: cs).drop pat.length
    else
      c :: replaceFirstAux pat rep cs

/-- JS `s.replace(pat, rep)` for a string pattern (first occurrence only). -/
def jsReplaceFirst (s pat rep : String) : String :=
  ⟨replaceFirstAux pat.toList rep.toList s.toList⟩

/-- JS `String.prototype.slice(0, endIdx)` where `endIdx` may be negative
(counted from the end) and is clamped to the string bounds. -/
def jsSliceTo (s : String) (endIdx : Int) : String :=
  let n : Int := s.toList.length
  let e : Int := if endIdx < 0 then max (n + endIdx) 0 else min endIdx n
  ⟨s.toList.take e.toNat⟩

/-- JS `String.prototype.lastIndexOf` for a single character: the largest
index holding it, `-1` if absent. -/
def jsLastIndexOf (s : String) (c : Char) : Int :=
  match (s.toList.enum.filter (fun p => p.2 == c)).getLast? with
  | some (i, _) => (i : Int)
  | none => -1

/-- Split a char list at every occurrence of `sep`, keeping empty pieces
(so the result is always nonempty). -/
def splitOnChar (sep : Char) : List Char → List (List Char)
  | [] => [[]]
  | c :: cs =>
    let r := splitOnChar sep cs
    if c == sep then [] :: r
    else
      match r with
      | [] => [[c]]
      | p :: ps => (c :: p) :: ps

/-- JS `s.split('/')`-style split (single-character separator, keeping empty
pieces), as used by `getDirectory` / `resolvePath` / name splitting.  Every
split in the modelled code uses a one-character separator. -/
def jsSplit (s : String) (sep : String) : List String :=
  match sep.toList with
  | [c] => (splitOnChar c s.toList).map (fun l => ⟨l⟩)
  | _ => [s]

/-- `getDirectory` from `src/resolver/index.ts`: split on `/`, drop the last
segment, re-join. -/
def getDirectory (filePath : String) : String :=
  String.intercalate "/" ((jsSplit filePath "/").dropLast)

/-- `resolvePath` from `src/resolver/index.ts`: resolve a relative module
specifier against a base directory, interpreting `.` and `..` segments. -/
def resolvePath (baseDir relativePath : String) : String :=
  let parts := (jsSplit baseDir "/").filter (fun p => p ≠ "")
  let relParts := (jsSplit relativePath "/").filter (fun p => p ≠ "")
  let finalParts := relParts.foldl
    (fun acc part =>
      if part = "." then acc
      else if part = ".." then acc.dropLast
      else acc ++ [part])
    parts
  String.intercalate "/" finalParts

/-- The regex replacement `replace(/\.[^/.]+$/, '')` used by `moduleMatches`:
strip a trailing `.ext` (a dot followed by at least one character none of
which is `/` or `.`), if present. -/
def stripExt (s : String) : String :=
  let cs := s.toList
  let rev := cs.reverse
  let extRev := rev.takeWhile (fun c => c ≠ '/' ∧ c ≠ '.')
  let restRev := rev.drop extRev.length
  match restRev with
  | '.' :: tail => if extRev.isEmpty then s else ⟨tail.reverse⟩
  | _ => s

/-! ## Data model (`src/types.ts`) -/

/-- A named import recorded in an `import` node's metadata. -/
structure NamedImport where
  name : String
  alias? : Option String := none
deriving Repr, DecidableEq

/-- The metadata bag attached to nodes and edges.  The source stores it as a
free-form JSON document; this structure carries every key the store,
resolver and context assembler read or write, plus `rest` for all other
extractor-specific keys, which every modelled operation preserves verbatim. -/
structure Metadata where
  unresolved : Option Bool := none
  targetName : Option String := none
  resolvedFrom : Option String := none
  ambiguousCandidates : Option (List String) := none
  line : Option Nat := none
  isExported : Option Bool := none
  namedImports : Option (List NamedImport) := none
  defaultImport : Option String := none
  namedExports : Option (List String) := none
  source : Option String := none
  imported : Option (List String) := none
  rest : List (String × String) := []
deriving Repr, DecidableEq

/-- `GraphNode` from `src/types.ts`.  `type`, `language` are kept as strings,
exactly as they travel through the store. -/
structure GraphNode where
  id : String
  type : String
  name : String
  filePath : String
  lineStart : Nat
  lineEnd : Nat
  language : String
  metadata : Metadata := {}
deriving Repr, DecidableEq

/-- `GraphEdge` from `src/types.ts`. -/
structure GraphEdge where
  id : String
  sourceId : String
  targetId : String
  type : String
  metadata : Metadata := {}
deriving Repr, DecidableEq

/-- The node types of the `NodeType` union in `src/types.ts`. -/
def validNodeTypes : List String :=
  ["file", "class", "interface", "function", "method", "variable", "import",
   "export", "module", "controller", "service", "repository", "component",
   "bean", "endpoint"]

/-! ## The id scheme (`src/parsers/base.ts`) -/

/-- The sixteen lowercase hex digits. -/
def hexDigit (n : Nat) : Char :=
  if n < 10 then Char.ofNat ('0'.toNat + n)
  else Char.ofNat ('a'.toNat + (n - 10))

/-- Render a number as exactly 12 lowercase hex digits (little input cut to
`16^12`). -/
def toHex12 (n : Nat) : String :=
  ⟨(List.range 12).reverse.map (fun i => hexDigit (n / 16 ^ i % 16))⟩

/-- Modelled from the spec: the extractors hash id material with the external
`crypto` md5, take the hex digest and truncate it to 12 characters
(`src/parsers/base.ts`).  The md5 library itself is outside the repository;
all the development uses about it is that it maps any string to 12 lowercase
hex digits, which this concrete stand-in (a polynomial string hash rendered
in hex) guarantees. -/
def md5hex12 (s : String) : String :=
  toHex12 (s.toList.foldl (fun a c => (a * 131 + c.toNat) % 16 ^ 12) 5381)

/-- `generateNodeId` from `src/parsers/base.ts`:
hash of `filePath:type:name:line`, prefixed by the node type. -/
def generateNodeId (filePath type name : String) (line : Nat) : String :=
  type ++ "_" ++ md5hex12 (filePath ++ ":" ++ type ++ ":" ++ name ++ ":" ++ toString line)

/-- `generateEdgeId` from `src/parsers/base.ts`:
hash of `sourceId:targetId:type`, prefixed by `edge`. -/
def generateEdgeId (sourceId targetId type : String) : String :=
  "edge_" ++ md5hex12 (sourceId ++ ":" ++ targetId ++ ":" ++ type)

/-- `createNode` from `src/parsers/base.ts`. -/
def createNode (language filePath type name : String) (lineStart lineEnd : Nat)
    (metadata : Metadata := {}) : GraphNode :=
  { id := generateNodeId filePath type name lineStart
    type := type
    name := name
    filePath := filePath
    lineStart := lineStart
    lineEnd := lineEnd
    language := language
    metadata := metadata }

/-- `createEdge` from `src/parsers/base.ts`. -/
def createEdge (sourceId targetId type : String) (metadata : Metadata := {}) :
    GraphEdge :=
  { id := generateEdgeId sourceId targetId type
    sourceId := sourceId
    targetId := targetId
    type := type
    metadata := metadata }

/-! ## The store (`src/db/schema.ts`), modelled functionally -/

/-- The mutable state of `GraphDatabase`: the `nodes` and `edges` tables.
Row order models SQLite rowid order (insertion order). -/
structure Store where
  nodes : List GraphNode := []
  edges : List GraphEdge := []
deriving Repr, DecidableEq

/-- `getNode`: `SELECT * FROM nodes WHERE id = ?` (first row). -/
def dbGetNode (s : Store) (id : String) : Option GraphNode :=
  s.nodes.find? (fun n => n.id == id)

/-- `getNodesByFile`: `SELECT * FROM nodes WHERE file_path = ?`. -/
def getNodesByFile (s : Store) (filePath : String) : List GraphNode :=
  s.nodes.filter (fun n => n.filePath == filePath)

/-- `getNodesByType`: `SELECT * FROM nodes WHERE type = ?`. -/
def getNodesByType (s : Store) (type : String) : List GraphNode :=
  s.nodes.filter (fun n => n.type == type)

/-- `deleteNodesByFile` from `src/db/schema.ts`: first delete every edge
whose `source_id` or `target_id` is the id of a node of the file, then delete
the file's nodes. -/
def deleteNodesByFile (s : Store) (filePath : String) : Store :=
  let nodeIds := (s.nodes.filter (fun n => n.filePath == filePath)).map (·.id)
  let edges' :=
    if nodeIds.length > 0 then
      s.edges.filter (fun e => ¬ (e.sourceId ∈ nodeIds ∨ e.targetId ∈ nodeIds))
    else s.edges
  { nodes := s.nodes.filter (fun n => ¬ n.filePath == filePath)
    edges := edges' }

/-- The selection predicate of `getUnresolvedEdges`:
`target_id LIKE 'ref:%' OR json_extract(metadata, '$.unresolved') = true`. -/
def isUnresolvedRow (e : GraphEdge) : Bool :=
  likeRef e.targetId || e.metadata.unresolved == some true

/-- `getUnresolvedEdges` from `src/db/schema.ts`. -/
def getUnresolvedEdges (s : Store) : List GraphEdge :=
  s.edges.filter isUnresolvedRow

/-- `updateEdgeTarget` from `src/db/schema.ts`: re-reads the row, sets
`metadata.unresolved`, records the previous target in `metadata.resolvedFrom`
when resolving, then rewrites `target_id` and `metadata`. -/
def updateEdgeTarget (s : Store) (edgeId newTargetId : String)
    (unresolved : Bool) : Store :=
  match s.edges.find? (fun e => e.id == edgeId) with
  | none => s
  | some e0 =>
    let md :=
      if unresolved then { e0.metadata with unresolved := some true }
      else { e0.metadata with unresolved := some false,
                              resolvedFrom := some e0.targetId }
    { s with
      edges := s.edges.map (fun e =>
        if e.id == edgeId then { e with targetId := newTargetId, metadata := md }
        else e) }

/-- `updateEdgeMetadata` from `src/db/schema.ts`. -/
def updateEdgeMetadata (s : Store) (edgeId : String) (md : Metadata) : Store :=
  { s with
    edges := s.edges.map (fun e =>
      if e.id == edgeId then { e with metadata := md } else e) }

/-- The result record of `getResolutionStats`. -/
structure ResolutionStats where
  total : Nat
  resolved : Nat
  unresolved : Nat
deriving Repr, DecidableEq

/-- `getResolutionStats` from `src/db/schema.ts`:
`total` is `COUNT(*)`, `unresolved` counts rows with
`target_id LIKE 'ref:%'`, `resolved` is their difference. -/
def getResolutionStats (s : Store) : ResolutionStats :=
  let total := s.edges.length
  let unresolvedCount := (s.edges.filter (fun e => likeRef e.targetId)).length
  { total := total
    resolved := total - unresolvedCount
    unresolved := unresolvedCount }

/-- The `ORDER BY name` row order. -/
def nameRel (a b : GraphNode) : Prop := a.name ≤ b.name

instance : DecidableRel nameRel := fun a b => inferInstanceAs (Decidable (a.name ≤ b.name))

/-- `searchNodes`: `SELECT * FROM nodes WHERE name LIKE '%q%' ORDER BY name
LIMIT 100`.  The row order among equal names is unspecified by SQLite; the
model uses a stable sort on the binary name order. -/
def searchNodes (s : Store) (query : String) : List GraphNode :=
  ((List.insertionSort nameRel
    (s.nodes.filter (fun n => likeContains n.name query))).take 100)

/-- `getEdgesTo`: `SELECT * FROM edges WHERE target_id = ?`. -/
def getEdgesTo (s : Store) (nodeId : String) : List GraphEdge :=
  s.edges.filter (fun e => e.targetId == nodeId)

/-- `getEdgesFrom`: `SELECT * FROM edges WHERE source_id = ?`. -/
def getEdgesFrom (s : Store) (nodeId : String) : List GraphEdge :=
  s.edges.filter (fun e => e.sourceId == nodeId)

/-- The result shape of `getFileContext`. -/
structure FileContext where
  nodes : List GraphNode
  incomingEdges : List GraphEdge
  outgoingEdges : List GraphEdge
deriving Repr, DecidableEq

/-- `getFileContext` from `src/db/schema.ts`: the file's nodes, plus edges
into the file from outside and out of the file to the outside. -/
def getFileContext (s : Store) (filePath : String) : FileContext :=
  let nodes := getNodesByFile s filePath
  let nodeIds := nodes.map (·.id)
  if nodeIds.length = 0 then { nodes := [], incomingEdges := [], outgoingEdges := [] }
  else
    { nodes := nodes
      incomingEdges := s.edges.filter
        (fun e => e.targetId ∈ nodeIds ∧ e.sourceId ∉ nodeIds)
      outgoingEdges := s.edges.filter
        (fun e => e.sourceId ∈ nodeIds ∧ e.targetId ∉ nodeIds) }

/-! ## The reference resolver (`src/resolver/index.ts`) -/

/-- `SymbolEntry` from `src/resolver/index.ts`. -/
structure SymbolEntry where
  nodeId : String
  name : String
  fullName : String
  type : String
  filePath : String
  language : String
  exportedAs : Option (List String) := none
deriving Repr, DecidableEq

/-- `ImportInfo` from `src/resolver/index.ts`. -/
structure ImportInfo where
  filePath : String
  moduleSpecifier : String
  namedImports : List NamedImport := []
  defaultImport : Option String := none
  isRelative : Bool
deriving Repr, DecidableEq

/-- `getShortName`: the last dot-separated segment. -/
def getShortName (fullName : String) : String :=
  ((jsSplit fullName ".").getLast?).getD fullName

/-- The symbol index, keyed by textual name forms.  Models the resolver's
`Map<string, SymbolEntry[]>`; bucket and key order follow insertion order. -/
abbrev SymbolIndex : Type := List (String × List SymbolEntry)

/-- Index lookup: `this.symbolIndex.get(key) || []`. -/
def idxLookup (idx : SymbolIndex) (key : String) : List SymbolEntry :=
  match idx.find? (fun p => p.1 == key) with
  | some p => p.2
  | none => []

/-- `addToIndex`: append the entry to the key's bucket unless an entry with
the same `nodeId` is already there. -/
def addToIndex (idx : SymbolIndex) (key : String) (entry : SymbolEntry) :
    SymbolIndex :=
  match idx.find? (fun p => p.1 == key) with
  | some _ =>
    idx.map (fun p =>
      if p.1 == key then
        if p.2.any (fun e => e.nodeId == entry.nodeId) then p
        else (p.1, p.2 ++ [entry])
      else p)
  | none => idx ++ [(key, [entry])]

/-- The `SymbolEntry` built for one node in `buildSymbolIndex`. -/
def entryOfNode (n : GraphNode) : SymbolEntry :=
  { nodeId := n.id
    name := getShortName n.name
    fullName := n.name
    type := n.type
    filePath := n.filePath
    language := n.language
    exportedAs :=
      if n.metadata.isExported == some true then some [getShortName n.name]
      else none }

/-- The index keys one node is registered under in `buildSymbolIndex`:
short name, full name, bare method name for methods, and `Owner.member`
for two-segment dotted names. -/
def indexKeysOf (n : GraphNode) : List String :=
  let entry := entryOfNode n
  let base := [entry.name, entry.fullName]
  let base :=
    if n.type == "method" ∧ strIncludes entry.fullName "." then
      base ++ [((jsSplit entry.fullName ".").getLast?).getD ""]
    else base
  if strIncludes n.name "." ∧ (jsSplit n.name ".").length = 2 then
    base ++ [n.name]
  else base

/-- `buildSymbolIndex` from `src/resolver/index.ts`: every node except
`file` and `import` nodes is indexed under each of its key forms. -/
def buildSymbolIndex (nodes : List GraphNode) : SymbolIndex :=
  nodes.foldl
    (fun idx n =>
      if n.type == "file" || n.type == "import" then idx
      else (indexKeysOf n).foldl (fun idx k => addToIndex idx k (entryOfNode n)) idx)
    []

/-- The `ImportInfo` built from one `import` node in
`buildImportExportMaps`. -/
def importInfoOfNode (n : GraphNode) : ImportInfo :=
  { filePath := n.filePath
    moduleSpecifier := n.name
    namedImports := (n.metadata.namedImports).getD []
    defaultImport := n.metadata.defaultImport
    isRelative := strStartsWith n.name "." }

/-- The per-file import list of `buildImportExportMaps`
(`this.fileImports.get(filePath) || []`): the file's `import` nodes in
table order. -/
def fileImportsOf (nodes : List GraphNode) (filePath : String) :
    List ImportInfo :=
  (nodes.filter (fun n => n.type == "import" && n.filePath == filePath)).map
    importInfoOfNode

/-- `cleanTargetName`: strip `this.`, `self.`, `super.` receiver prefixes
(sequentially, as in the source). -/
def cleanTargetName (name : String) : String :=
  let c := name
  let c := if strStartsWith c "this." then ⟨c.toList.drop 5⟩ else c
  let c := if strStartsWith c "self." then ⟨c.toList.drop 5⟩ else c
  let c := if strStartsWith c "super." then ⟨c.toList.drop 6⟩ else c
  c

/-- `moduleMatches` from `src/resolver/index.ts`. -/
def moduleMatches (candidateFilePath moduleSpecifier sourceFilePath : String) :
    Bool :=
  if ¬ strStartsWith moduleSpecifier "." then
    strIncludes candidateFilePath moduleSpecifier
  else
    let sourceDir := getDirectory sourceFilePath
    let resolvedPath := resolvePath sourceDir moduleSpecifier
    let candidateWithoutExt := stripExt candidateFilePath
    let resolvedWithoutExt := stripExt resolvedPath
    candidateFilePath == resolvedPath ||
    candidateWithoutExt == resolvedWithoutExt ||
    strStartsWith candidateFilePath (resolvedPath ++ "/") ||
    strStartsWith candidateWithoutExt (resolvedWithoutExt ++ "/")

/-- `isCompatibleType` from `src/resolver/index.ts`: the edge-type /
node-type compatibility table; unknown edge types allow any node type. -/
def isCompatibleType (nodeType edgeType : String) : Bool :=
  let table : List (String × List String) :=
    [("calls", ["function", "method", "endpoint"]),
     ("uses", ["variable", "class", "interface", "function", "method"]),
     ("extends", ["class", "interface"]),
     ("implements", ["interface"]),
     ("imports", ["module", "file", "class", "function", "variable"]),
     ("autowires", ["class", "interface", "service", "repository", "component", "controller"]),
     ("injects", ["class", "interface", "service", "repository", "component", "controller"])]
  match table.find? (fun p => p.1 == edgeType) with
  | some p => p.2.contains nodeType
  | none => true

/-- Push a candidate unless one with the same `nodeId` is present
(the dedup used throughout `findCandidates`). -/
def pushUnique (cs : List SymbolEntry) (m : SymbolEntry) : List SymbolEntry :=
  if cs.any (fun c => c.nodeId == m.nodeId) then cs else cs ++ [m]

/-- `findCandidates` from `src/resolver/index.ts`: direct index hits, dotted
fallbacks, import-driven hits, then the edge-type compatibility filter. -/
def findCandidates (idx : SymbolIndex) (imports : List ImportInfo)
    (targetName : String) (sourceNode : GraphNode) (edgeType : String) :
    List SymbolEntry :=
  let cleanName := cleanTargetName targetName
  let candidates := idxLookup idx cleanName
  let candidates :=
    if strIncludes cleanName "." then
      let parts := jsSplit cleanName "."
      let lastPart := (parts.getLast?).getD ""
      let candidates := (idxLookup idx lastPart).foldl pushUnique candidates
      if parts.length ≥ 2 then
        let classMethod := (parts.getD (parts.length - 2) "") ++ "." ++ lastPart
        (idxLookup idx classMethod).foldl pushUnique candidates
      else candidates
    else candidates
  let candidates := imports.foldl
    (fun candidates imp =>
      imp.namedImports.foldl
        (fun candidates namedImport =>
          let importedAs := (namedImport.alias?).getD namedImport.name
          if cleanName == importedAs ||
              strStartsWith cleanName (importedAs ++ ".") then
            ((idxLookup idx namedImport.name).filter
              (fun m => moduleMatches m.filePath imp.moduleSpecifier
                sourceNode.filePath)).foldl pushUnique candidates
          else candidates)
        candidates)
    candidates
  candidates.filter (fun c => isCompatibleType c.type edgeType)

/-- `calculateScore` from `src/resolver/index.ts`: the weighted ranking
signals. -/
def calculateScore (imports : List ImportInfo) (candidate : SymbolEntry)
    (sourceNode : GraphNode) (targetName : String) : Nat :=
  let score := 0
  let score := if candidate.filePath == sourceNode.filePath then score + 100 else score
  let score :=
    if getDirectory sourceNode.filePath == getDirectory candidate.filePath then
      score + 50
    else score
  let score := if candidate.language == sourceNode.language then score + 30 else score
  let score :=
    if candidate.fullName == targetName || candidate.name == targetName then
      score + 40
    else score
  let score :=
    match candidate.exportedAs with
    | some l => if l.length > 0 then score + 20 else score
    | none => score
  let score :=
    if imports.any (fun imp =>
        moduleMatches candidate.filePath imp.moduleSpecifier sourceNode.filePath) then
      score + 60
    else score
  let score :=
    if strIncludes targetName "." ∧ strIncludes candidate.fullName "." then
      let targetClass := ((jsSplit targetName ".").headD "")
      let candidateClass := ((jsSplit candidate.fullName ".").headD "")
      if jsToLower targetClass == jsToLower candidateClass then score + 35
      else score
    else score
  score

/-- A scored candidate, as produced by `rankCandidates`. -/
structure ScoredEntry where
  entry : SymbolEntry
  score : Nat
deriving Repr, DecidableEq

/-- The descending-score order of `rankCandidates`
(`sort((a, b) => b.score - a.score)`). -/
def rankRel (a b : ScoredEntry) : Prop := b.score ≤ a.score

instance : DecidableRel rankRel := fun a b => Nat.decLe b.score a.score

instance : IsTotal ScoredEntry rankRel := ⟨fun a b => Nat.le_total b.score a.score⟩

instance : IsTrans ScoredEntry rankRel :=
  ⟨fun _ _ _ hab hbc => Nat.le_trans hbc hab⟩

/-- `rankCandidates`: score each candidate and sort descending by score.
JS `Array.prototype.sort` is stable, as is the insertion sort used here. -/
def rankCandidates (imports : List ImportInfo) (candidates : List SymbolEntry)
    (sourceNode : GraphNode) (targetName : String) : List ScoredEntry :=
  List.insertionSort rankRel
    (candidates.map (fun e =>
      ({ entry := e,
         score := calculateScore imports e sourceNode targetName } : ScoredEntry)))

/-- The result record of `resolveEdge`. -/
structure ResolveOutcome where
  resolved : Bool
  ambiguous : Bool
  targetId : Option String := none
  candidates : Option (List String) := none
deriving Repr, DecidableEq

/-- The `"fullName (filePath)"` rendering of an ambiguous candidate. -/
def fmtCandidate (r : ScoredEntry) : String :=
  r.entry.fullName ++ " (" ++ r.entry.filePath ++ ")"

/-- `resolveEdge` from `src/resolver/index.ts`: reject edges without a
`targetName` or without a source node; resolve unique candidates directly;
rank multiple candidates and resolve only a clear winner (score gap
strictly greater than 10), otherwise report ambiguity with the top five
candidates rendered as `"fullName (filePath)"`. -/
def resolveEdge (nodes : List GraphNode) (idx : SymbolIndex)
    (edge : GraphEdge) : ResolveOutcome :=
  match edge.metadata.targetName with
  | none => { resolved := false, ambiguous := false }
  | some targetName =>
    if targetName == "" then { resolved := false, ambiguous := false }
    else
      match (nodes.find? (fun n => n.id == edge.sourceId)) with
      | none => { resolved := false, ambiguous := false }
      | some sourceNode =>
        let imports := fileImportsOf nodes sourceNode.filePath
        let candidates := findCandidates idx imports targetName sourceNode edge.type
        if candidates.length = 0 then { resolved := false, ambiguous := false }
        else if candidates.length = 1 then
          { resolved := true, ambiguous := false,
            targetId := (candidates.head?).map (·.nodeId) }
        else
          let ranked := rankCandidates imports candidates sourceNode targetName
          match ranked with
          | r0 :: r1 :: _ =>
            if r1.score + 10 < r0.score then
              { resolved := true, ambiguous := false, targetId := some r0.entry.nodeId }
            else
              { resolved := false, ambiguous := true,
                candidates := some ((ranked.take 5).map fmtCandidate) }
          | _ =>
            { resolved := false, ambiguous := true,
              candidates := some ((ranked.take 5).map fmtCandidate) }

/-- One iteration of the `resolve()` loop: apply the outcome for one
worklist edge to the store (`updateEdgeTarget` on resolution,
`updateEdgeMetadata` with the snapshot metadata plus `ambiguousCandidates`
on ambiguity, nothing otherwise). -/
def applyOutcome (s : Store) (edgeSnapshot : GraphEdge) (o : ResolveOutcome) :
    Store :=
  if o.resolved then
    updateEdgeTarget s edgeSnapshot.id ((o.targetId).getD "") false
  else if o.ambiguous then
    updateEdgeMetadata s edgeSnapshot.id
      { edgeSnapshot.metadata with ambiguousCandidates := some ((o.candidates).getD []) }
  else s

/-- `resolve()` from `src/resolver/index.ts`: build the symbol index and the
file-import maps from the current nodes, snapshot the unresolved edges, and
fold the per-edge outcomes into the store. -/
def resolveStore (s : Store) : Store :=
  let idx := buildSymbolIndex s.nodes
  let worklist := getUnresolvedEdges s
  worklist.foldl (fun st e => applyOutcome st e (resolveEdge s.nodes idx e)) s

/-! ## TypeScript/JavaScript extractor (`src/parsers/typescript.ts`)

The external `ts-morph` AST is modelled by the data the extractor reads from
it: one record per import declaration, and one record per call expression
found by `getDescendantsOfKind(CallExpression)` inside a body. -/

/-- What the TS extractor reads from one `ImportDeclaration`. -/
structure TsImportDecl where
  moduleSpecifier : String
  namedImports : List String := []
  defaultImport : Option String := none
  startLine : Nat
  endLine : Nat
deriving Repr, DecidableEq

/-- The import loop of `TypeScriptParser.parse`: one `import` node per
declaration, each linked from the file node by a `contains` edge.  (The
source stores the named imports as bare strings in the metadata; the typed
model records them as `NamedImport`s without alias.) -/
def tsParseImports (filePath : String) (isJS : Bool) (fileNodeId : String)
    (decls : List TsImportDecl) : List GraphNode × List GraphEdge :=
  let language := if isJS then "javascript" else "typescript"
  decls.foldl
    (fun acc d =>
      let importNode := createNode language filePath "import" d.moduleSpecifier
        d.startLine d.endLine
        { namedImports := some (d.namedImports.map (fun n => { name := n })),
          defaultImport := d.defaultImport,
          rest := [("moduleSpecifier", d.moduleSpecifier)] }
      (acc.1 ++ [importNode],
       acc.2 ++ [createEdge fileNodeId importNode.id "contains"]))
    ([], [])

/-- What the TS extractor reads from one `CallExpression`: the syntactic
kind of the callee expression, its text, and the call line. -/
structure TsCallExpr where
  isIdentifier : Bool
  isPropAccess : Bool
  text : String
  startLine : Nat
deriving Repr, DecidableEq

/-- `parseCallExpressions` from `src/parsers/typescript.ts`: derive the call
name from identifier or property-access callees, skip other callees, and
emit one unresolved `calls` edge per first occurrence of a call name. -/
def parseCallExpressions (parentId : String) (calls : List TsCallExpr) :
    List GraphEdge :=
  (calls.foldl
    (fun (st : List String × List GraphEdge) call =>
      if call.isIdentifier || call.isPropAccess then
        let callName := call.text
        if st.1.contains callName then st
        else
          (st.1 ++ [callName],
           st.2 ++ [createEdge parentId ("ref:function:" ++ callName) "calls"
             { unresolved := some true, targetName := some callName,
               line := some call.startLine }])
      else st)
    ([], [])).2

/-! ## Python extractor (`src/parsers/python.ts`)

The tree-sitter concrete syntax tree is modelled as a rose tree carrying the
node type, its source text, its named fields and its children.  The three
types are mutually inductive so that the extractor's tree walks are plain
structural recursions. -/

mutual
/-- A tree-sitter syntax node: `type`, `text`, named fields, children and
0-based start/end rows. -/
inductive PyNode where
  | mk (ty : String) (text : String) (fields : PyFields) (children : PyForest)
       (startRow : Nat) (endRow : Nat)

/-- The named fields of a tree-sitter node (`childForFieldName`). -/
inductive PyFields where
  | nil
  | cons (key : String) (value : PyNode) (rest : PyFields)

/-- A list of tree-sitter child nodes. -/
inductive PyForest where
  | nil
  | cons (head : PyNode) (tail : PyForest)
end

/-- The `type` of a tree-sitter node. -/
def PyNode.ty : PyNode → String
  | .mk t _ _ _ _ _ => t

/-- The source `text` of a tree-sitter node. -/
def PyNode.text : PyNode → String
  | .mk _ t _ _ _ _ => t

/-- The 0-based start row of a tree-sitter node. -/
def PyNode.startRow : PyNode → Nat
  | .mk _ _ _ _ r _ => r

/-- The 0-based end row of a tree-sitter node. -/
def PyNode.endRow : PyNode → Nat
  | .mk _ _ _ _ _ r => r

/-- Field lookup (`childForFieldName`). -/
def PyFields.lookup : PyFields → String → Option PyNode
  | .nil, _ => none
  | .cons k v rest, f => if k == f then some v else rest.lookup f

/-- `node.childForFieldName(f)`. -/
def PyNode.childForFieldName (n : PyNode) (f : String) : Option PyNode :=
  match n with
  | .mk _ _ fields _ _ _ => fields.lookup f

/-- The children of a node, as a Lean list. -/
def PyForest.toList : PyForest → List PyNode
  | .nil => []
  | .cons h t => h :: t.toList

/-- The children of a node, as a Lean list. -/
def PyNode.childList : PyNode → List PyNode
  | .mk _ _ _ children _ _ => children.toList

mutual
/-- Structural equality on modelled tree-sitter nodes (the source compares
CST nodes by object identity; structurally equal model trees stand for the
same node). -/
def PyNode.beq : PyNode → PyNode → Bool
  | .mk t₁ x₁ f₁ c₁ s₁ e₁, .mk t₂ x₂ f₂ c₂ s₂ e₂ =>
    t₁ == t₂ && x₁ == x₂ && PyFields.beq f₁ f₂ && PyForest.beq c₁ c₂ &&
    s₁ == s₂ && e₁ == e₂

/-- Structural equality on field maps. -/
def PyFields.beq : PyFields → PyFields → Bool
  | .nil, .nil => true
  | .cons k₁ v₁ r₁, .cons k₂ v₂ r₂ =>
    k₁ == k₂ && PyNode.beq v₁ v₂ && PyFields.beq r₁ r₂
  | _, _ => false

/-- Structural equality on child lists. -/
def PyForest.beq : PyForest → PyForest → Bool
  | .nil, .nil => true
  | .cons h₁ t₁, .cons h₂ t₂ => PyNode.beq h₁ h₂ && PyForest.beq t₁ t₂
  | _, _ => false
end

/-- The `{name, alias}` records collected by the Python import parsers. -/
def pyCollectNames (children : List PyNode) : List NamedImport :=
  children.foldl
    (fun names child =>
      if child.ty == "dotted_name" then names ++ [{ name := child.text }]
      else if child.ty == "aliased_import" then
        match child.childForFieldName "name" with
        | some nameNode =>
          names ++ [{ name := nameNode.text,
                      alias? := (child.childForFieldName "alias").map PyNode.text }]
        | none => names
      else names)
    []

/-- `parseImport` from `src/parsers/python.ts` (`import X [as Y]`): one
`import` node per imported module, each linked from the parent by an edge of
type `imports`. -/
def pyParseImport (node : PyNode) (filePath parentId : String) :
    List GraphNode × List GraphEdge :=
  let names := pyCollectNames node.childList
  names.foldl
    (fun acc imported =>
      let importNode := createNode "python" filePath "import" imported.name
        (node.startRow + 1) (node.endRow + 1)
        { rest := [("type", "module")] ++
            (match imported.alias? with
             | some a => [("alias", a)]
             | none => []) }
      (acc.1 ++ [importNode],
       acc.2 ++ [createEdge parentId importNode.id "imports"]))
    ([], [])

/-- The named-import collection of `parseFromImport`: the first loop over
the children (skipping the module-name node itself), then the `import_list`
fallback for the alternative tree shape. -/
def pyCollectFromImports (node : PyNode) (moduleNode : Option PyNode) :
    List NamedImport :=
  let fromChildren := node.childList.foldl
    (fun names child =>
      if child.ty == "dotted_name" &&
          ! (match moduleNode with
             | some m => PyNode.beq child m
             | none => false) then
        names ++ [{ name := child.text }]
      else if child.ty == "aliased_import" then
        match child.childForFieldName "name" with
        | some nameNode =>
          names ++ [{ name := nameNode.text,
                      alias? := (child.childForFieldName "alias").map PyNode.text }]
        | none => names
      else if child.ty == "wildcard_import" then names ++ [{ name := "*" }]
      else names)
    []
  match node.childList.find? (fun c => c.ty == "import_list") with
  | none => fromChildren
  | some importList =>
    importList.childList.foldl
      (fun names child =>
        if child.ty == "dotted_name" || child.ty == "identifier" then
          names ++ [{ name := child.text }]
        else if child.ty == "aliased_import" then
          match child.childForFieldName "name" with
          | some nameNode =>
            names ++ [{ name := nameNode.text,
                        alias? := (child.childForFieldName "alias").map PyNode.text }]
          | none => names
        else names)
      fromChildren

/-- `parseFromImport` from `src/parsers/python.ts`
(`from M import a, b [as c], *`): a single `import` node named after the
module (`.` when missing), linked from the parent by an edge of type
`imports`. -/
def pyParseFromImport (node : PyNode) (filePath parentId : String) :
    List GraphNode × List GraphEdge :=
  let moduleNode := node.childForFieldName "module_name"
  let moduleName := (moduleNode.map PyNode.text).getD ""
  let namedImports := pyCollectFromImports node moduleNode
  let importNode := createNode "python" filePath "import"
    (if moduleName == "" then "." else moduleName)
    (node.startRow + 1) (node.endRow + 1)
    { namedImports := some namedImports,
      rest := [("type", "from"),
               ("isRelative",
                toString (strStartsWith moduleName "." || moduleNode.isNone))] }
  ([importNode], [createEdge parentId importNode.id "imports"])

/-- The Python built-in call names skipped by `parseFunctionCalls`. -/
def pyBuiltins : List String :=
  ["print", "len", "range", "str", "int", "float", "list", "dict",
   "set", "tuple", "type", "isinstance", "hasattr", "getattr",
   "setattr", "open", "super", "enumerate", "zip", "map", "filter",
   "sorted", "reversed", "any", "all", "min", "max", "sum", "abs",
   "round", "format", "repr", "id", "hash", "callable", "dir",
   "vars", "globals", "locals", "input", "eval", "exec", "compile"]

/-- The traversal state of the call collectors: seen call names and emitted
edges. -/
abbrev CallState : Type := List String × List GraphEdge

/-- One `call` node's contribution in `parseFunctionCalls`: emit an
unresolved `calls` edge unless the base name is a built-in or the full call
name was already seen. -/
def pyEmitCall (funcNodeId : String) (n : PyNode) (st : CallState) : CallState :=
  match n.childForFieldName "function" with
  | none => st
  | some funcPart =>
    let callName := funcPart.text
    let baseName := ((jsSplit callName ".").headD "")
    if ¬ pyBuiltins.contains baseName ∧ ¬ st.1.contains callName then
      (st.1 ++ [callName],
       st.2 ++ [createEdge funcNodeId ("ref:function:" ++ callName) "calls"
         { unresolved := some true, targetName := some callName,
           line := some (n.startRow + 1) }])
    else st

mutual
/-- The recursive traversal of `parseFunctionCalls` from
`src/parsers/python.ts`, on one node: handle `call` nodes, then descend
except into nested `function_definition` / `class_definition`. -/
def pyCallsNode (funcNodeId : String) (n : PyNode) (st : CallState) :
    CallState :=
  match n with
  | .mk ty _ _ children _ _ =>
    let st₁ := if ty == "call" then pyEmitCall funcNodeId n st else st
    if ty == "function_definition" || ty == "class_definition" then st₁
    else pyCallsForest funcNodeId children st₁

/-- The traversal of `parseFunctionCalls` over a child list. -/
def pyCallsForest (funcNodeId : String) (f : PyForest) (st : CallState) :
    CallState :=
  match f with
  | .nil => st
  | .cons h t => pyCallsForest funcNodeId t (pyCallsNode funcNodeId h st)
end

/-- `parseFunctionCalls` from `src/parsers/python.ts`: traverse a function
body and emit at most one unresolved `calls` edge per distinct call name. -/
def parseFunctionCalls (body : PyNode) (funcNodeId : String) :
    List GraphEdge :=
  (pyCallsNode funcNodeId body ([], [])).2

/-! ## Java extractor (`src/parsers/java.ts`)

The `java-parser` CST is modelled as a rose tree following the source's
`JavaNode` interface: a node name, an optional token image, the children
grouped under their CST keys (`Object.values` iterates the groups in key
order), and an optional source location. -/

mutual
/-- A `JavaNode`: name, optional token image, optional keyed child groups
(`none` models a token without a `children` object), optional
`(startLine, endLine)` location. -/
inductive JTree where
  | mk (name : String) (image : Option String) (children : Option JGroups)
       (loc : Option (Nat × Nat))

/-- The keyed child groups of a `JavaNode`, in key-insertion order. -/
inductive JGroups where
  | nil
  | cons (key : String) (items : JForest) (rest : JGroups)

/-- One child group's node list. -/
inductive JForest where
  | nil
  | cons (head : JTree) (tail : JForest)
end

/-- The CST node name. -/
def JTree.name : JTree → String
  | .mk n _ _ _ => n

/-- The token image, if any. -/
def JTree.image : JTree → Option String
  | .mk _ i _ _ => i

/-- The child groups, if the node has a `children` object. -/
def JTree.children : JTree → Option JGroups
  | .mk _ _ c _ => c

/-- `getStartLine`: `node.location?.startLine || 1`. -/
def JTree.startLine : JTree → Nat
  | .mk _ _ _ (some (s, _)) => if s = 0 then 1 else s
  | .mk _ _ _ none => 1

/-- `getEndLine`: `node.location?.endLine || 1`. -/
def JTree.endLine : JTree → Nat
  | .mk _ _ _ (some (_, e)) => if e = 0 then 1 else e
  | .mk _ _ _ none => 1

/-- `hasChild`: whether the `children` object has the given key. -/
def JGroups.hasKey : JGroups → String → Bool
  | .nil, _ => false
  | .cons k _ rest, key => k == key || rest.hasKey key

/-- `hasChild(node, childName)` from `src/parsers/java.ts`. -/
def JTree.hasChild (t : JTree) (childName : String) : Bool :=
  match t.children with
  | none => false
  | some gs => gs.hasKey childName

mutual
/-- The traversal of `extractFullyQualifiedName`: collect `Identifier`
token images (when non-empty, JS truthiness) and `*` for `Star` tokens, in
depth-first key order. -/
def jFqnNode : JTree → List String
  | .mk name image children _ =>
    (match image with
     | some i => if i ≠ "" ∧ name == "Identifier" then [i] else []
     | none => []) ++
    (if name == "Star" then ["*"] else []) ++
    (match children with
     | none => []
     | some gs => jFqnGroups gs)

/-- `extractFullyQualifiedName` traversal over the child groups. -/
def jFqnGroups : JGroups → List String
  | .nil => []
  | .cons _ items rest => jFqnForest items ++ jFqnGroups rest

/-- `extractFullyQualifiedName` traversal over one group's nodes. -/
def jFqnForest : JForest → List String
  | .nil => []
  | .cons h t => jFqnNode h ++ jFqnForest t
end

/-- `extractFullyQualifiedName` from `src/parsers/java.ts`: the collected
parts joined with `.`, or `null` when empty. -/
def extractFullyQualifiedName (t : JTree) : Option String :=
  match jFqnNode t with
  | [] => none
  | parts => some (String.intercalate "." parts)

mutual
/-- The traversal of `extractMethodCallName`: collect `Identifier` token
images (non-empty, JS truthiness) in depth-first key order. -/
def jIdsNode : JTree → List String
  | .mk name image children _ =>
    (match image with
     | some i => if i ≠ "" ∧ name == "Identifier" then [i] else []
     | none => []) ++
    (match children with
     | none => []
     | some gs => jIdsGroups gs)

/-- `extractMethodCallName` traversal over the child groups. -/
def jIdsGroups : JGroups → List String
  | .nil => []
  | .cons _ items rest => jIdsForest items ++ jIdsGroups rest

/-- `extractMethodCallName` traversal over one group's nodes. -/
def jIdsForest : JForest → List String
  | .nil => []
  | .cons h t => jIdsNode h ++ jIdsForest t
end

/-- `extractMethodCallName` from `src/parsers/java.ts`: the dotted join of
the identifiers under a `methodInvocation` node, or `null` when empty. -/
def extractMethodCallName (t : JTree) : Option String :=
  match jIdsNode t with
  | [] => none
  | ids => some (String.intercalate "." ids)

/-- JS `String.prototype.endsWith`. -/
def strEndsWith (s p : String) : Bool :=
  s.toList.reverse.take p.toList.length == p.toList.reverse

/-- `parseImport` from `src/parsers/java.ts`: one `import` node per import
declaration, linked from the file node by an edge of type `imports`;
nothing when no qualified name can be extracted. -/
def javaParseImport (importDecl : JTree) (filePath fileNodeId : String) :
    List GraphNode × List GraphEdge :=
  match extractFullyQualifiedName importDecl with
  | none => ([], [])
  | some importName =>
    let isStatic := importDecl.hasChild "Static"
    let isWildcard := strEndsWith importName "*"
    let importNode := createNode "java" filePath "import" importName
      importDecl.startLine importDecl.endLine
      { rest := [("isStatic", toString isStatic),
                 ("isWildcard", toString isWildcard)] }
    ([importNode], [createEdge fileNodeId importNode.id "imports"])

/-- One `methodInvocation` node's contribution in `parseMethodBodyForCalls`:
emit an unresolved `calls` edge on the first occurrence of the dotted call
name. -/
def jEmitCall (methodNodeId : String) (t : JTree) (st : CallState) :
    CallState :=
  match extractMethodCallName t with
  | none => st
  | some callName =>
    if st.1.contains callName then st
    else
      (st.1 ++ [callName],
       st.2 ++ [createEdge methodNodeId ("ref:method:" ++ callName) "calls"
         { unresolved := some true, targetName := some callName }])

mutual
/-- The recursive traversal of `parseMethodBodyForCalls` from
`src/parsers/java.ts`, on one node: skip nodes without a `children` object,
handle `methodInvocation` nodes, then descend into every child group. -/
def jCallsNode (methodNodeId : String) (t : JTree) (st : CallState) :
    CallState :=
  match t with
  | .mk name _ children _ =>
    match children with
    | none => st
    | some gs =>
      let st₁ := if name == "methodInvocation" then jEmitCall methodNodeId t st else st
      jCallsGroups methodNodeId gs st₁

/-- The `parseMethodBodyForCalls` traversal over the child groups. -/
def jCallsGroups (methodNodeId : String) (gs : JGroups) (st : CallState) :
    CallState :=
  match gs with
  | .nil => st
  | .cons _ items rest =>
    jCallsGroups methodNodeId rest (jCallsForest methodNodeId items st)

/-- The `parseMethodBodyForCalls` traversal over one group's nodes. -/
def jCallsForest (methodNodeId : String) (f : JForest) (st : CallState) :
    CallState :=
  match f with
  | .nil => st
  | .cons h t => jCallsForest methodNodeId t (jCallsNode methodNodeId h st)
end

/-- `parseMethodBodyForCalls` from `src/parsers/java.ts`: walk a method
body and emit at most one unresolved `calls` edge per distinct dotted call
name. -/
def parseMethodBodyForCalls (methodBody : JTree) (methodNodeId : String) :
    List GraphEdge :=
  (jCallsNode methodNodeId methodBody ([], [])).2

/-! ## Spring HTTP-mapping annotations (`src/parsers/java.ts`) -/

/-- The extracted value of an annotation, as built by
`extractAnnotationInfo`: a single literal, an array, or the
attribute-name/value record of an `elementValuePairList`. -/
inductive AnnotValue where
  | str (s : String)
  | arr (l : List String)
  | record (pairs : List (String × String))
deriving Repr, DecidableEq

/-- `AnnotationInfo` from `src/parsers/java.ts`. -/
structure AnnotInfo where
  name : String
  value : Option AnnotValue := none
deriving Repr, DecidableEq

/-- `extractHttpMethod` from `src/parsers/java.ts`: map the annotation name
to the HTTP verb; for `@RequestMapping`, read a `method` attribute when
present (dropping a leading `RequestMethod.` qualifier and upper-casing,
first-occurrence `replace` as in JS), defaulting to `GET`. -/
def extractHttpMethod (a : AnnotInfo) : Option String :=
  if a.name == "GetMapping" then some "GET"
  else if a.name == "PostMapping" then some "POST"
  else if a.name == "PutMapping" then some "PUT"
  else if a.name == "DeleteMapping" then some "DELETE"
  else if a.name == "PatchMapping" then some "PATCH"
  else if a.name == "RequestMapping" then
    match a.value with
    | some (.record pairs) =>
      match pairs.find? (fun p => p.1 == "method") with
      | some p =>
        if p.2 == "" then some "GET"
        else some (jsToUpper (jsReplaceFirst p.2 "RequestMethod." ""))
      | none => some "GET"
    | _ => some "GET"
  else none

/-- JS `String.prototype.slice(a, b)` with negative indices counted from
the end and clamping to the string bounds. -/
def jsSlice (s : String) (a b : Int) : String :=
  let n : Int := s.toList.length
  let lo : Int := if a < 0 then max (n + a) 0 else min a n
  let hi : Int := if b < 0 then max (n + b) 0 else min b n
  ⟨(s.toList.take hi.toNat).drop lo.toNat⟩

/-- JS `String.prototype.trim`. -/
def jsTrim (s : String) : String :=
  ⟨((s.toList.dropWhile Char.isWhitespace).reverse.dropWhile
      Char.isWhitespace).reverse⟩

/-- `groups[key]`: the item list of a child group, if present. -/
def JGroups.get : JGroups → String → Option JForest
  | .nil, _ => none
  | .cons k items rest, key => if k == key then some items else rest.get key

/-- `node.children?.[key]?.[0]`: the first node of a child group. -/
def JTree.childHead (t : JTree) (key : String) : Option JTree :=
  match t.children with
  | none => none
  | some gs =>
    match gs.get key with
    | some (.cons h _) => some h
    | _ => none

/-- A JS-truthy token image: present and non-empty. -/
def truthyImage : Option String → Option String
  | some i => if i = "" then none else some i
  | none => none

/-- `n.children?.[key]?.[0]?.image` as a JS-truthy string. -/
def groupHeadImage (children : Option JGroups) (key : String) :
    Option String :=
  match children with
  | none => none
  | some gs =>
    match gs.get key with
    | some (.cons h _) => truthyImage h.image
    | _ => none

/-- The first defined alternative (JS early `return` chaining). -/
def firstSome : Option String → Option String → Option String
  | some x, _ => some x
  | none, b => b

/-- `StringLiteral` image stripping: `image.slice(1, -1)`. -/
def stripQuotes (i : String) : String := jsSlice i 1 (-1)

/-- `TextBlock` image stripping: `image.slice(3, -3).trim()`. -/
def stripTextBlock (i : String) : String := jsTrim (jsSlice i 3 (-3))

mutual
/-- `findStringLiteral` inside `extractElementValue`
(`src/parsers/java.ts`): try the literal-token checks on the node itself
and on its direct `StringLiteral`/`TextBlock`/`IntegerLiteral` child
groups, take a `True`/`False`/`Identifier` token image as-is, and
otherwise descend into the child groups in key order, returning the first
defined result. -/
def jLitNode : JTree → Option String
  | .mk name image children _ =>
    firstSome
      (if name == "StringLiteral" then (truthyImage image).map stripQuotes
       else none) (firstSome
      ((groupHeadImage children "StringLiteral").map stripQuotes) (firstSome
      (if name == "TextBlock" then (truthyImage image).map stripTextBlock
       else none) (firstSome
      ((groupHeadImage children "TextBlock").map stripTextBlock) (firstSome
      (if name == "IntegerLiteral" then truthyImage image else none) (firstSome
      (groupHeadImage children "IntegerLiteral") (firstSome
      (if name == "True" || name == "False" then truthyImage image else none)
      (firstSome
      (if name == "Identifier" then truthyImage image else none)
      (match children with
       | none => none
       | some gs => jLitGroups gs))))))))

/-- `findStringLiteral` over the child groups, in key order. -/
def jLitGroups : JGroups → Option String
  | .nil => none
  | .cons _ items rest => firstSome (jLitForest items) (jLitGroups rest)

/-- `findStringLiteral` over one group's nodes. -/
def jLitForest : JForest → Option String
  | .nil => none
  | .cons h t => firstSome (jLitNode h) (jLitForest t)
end

/-- `extractElementValue` from `src/parsers/java.ts`: the depth-first
literal search. -/
def extractElementValue (node : JTree) : Option String :=
  jLitNode node

/-- JS `pairs[pairName] = extracted` on an insertion-ordered record:
update in place, else append. -/
def recordSet : List (String × String) → String → String →
    List (String × String)
  | [], k, v => [(k, v)]
  | (k', v') :: rest, k, v =>
    if k' == k then (k', v) :: rest else (k', v') :: recordSet rest k v

/-- The `elementValuePair` loop of `extractAnnotationInfo`: for each pair
with a truthy `Identifier` image and an `elementValue` child whose
extraction is defined, record the attribute. -/
def buildPairs : JForest → List (String × String) → List (String × String)
  | .nil, acc => acc
  | .cons pair rest, acc =>
    let acc' :=
      match (pair.childHead "Identifier").bind
          (fun n => truthyImage n.image),
        pair.childHead "elementValue" with
      | some pairName, some pairValue =>
        match extractElementValue pairValue with
        | some extracted => recordSet acc pairName extracted
        | none => acc
      | _, _ => acc
    buildPairs rest acc'

/-- The `value` computation of `extractAnnotationInfo`: a single
`elementValue` extraction, overridden by the attribute record of a
non-empty `elementValuePairList`. -/
def extractAnnotValue (annot : JTree) : Option AnnotValue :=
  let v1 : Option AnnotValue :=
    match annot.childHead "elementValue" with
    | some ev =>
      match extractElementValue ev with
      | some s => some (.str s)
      | none => none
    | none => none
  match annot.childHead "elementValuePairList" with
  | some lst =>
    match lst.children with
    | some gs =>
      match gs.get "elementValuePair" with
      | some pairForest =>
        let pairs := buildPairs pairForest []
        if pairs.isEmpty then v1 else some (.record pairs)
      | none => v1
    | none => v1
  | none => v1

/-- `extractTypeName` from `src/parsers/java.ts`: the dotted join of the
`Identifier` token images, `null` when empty. -/
def extractTypeName (t : JTree) : Option String :=
  match jIdsNode t with
  | [] => none
  | parts => some (String.intercalate "." parts)

/-- `extractAnnotationInfo` from `src/parsers/java.ts`: the annotation name
from the `typeName` child (its direct `Identifier` image, else
`extractTypeName`), `null` when missing, together with the extracted
value. -/
def extractAnnotInfo (annot : JTree) : Option AnnotInfo :=
  match annot.children with
  | none => none
  | some _ =>
    let name? : Option String :=
      match annot.childHead "typeName" with
      | some typeName =>
        match (typeName.childHead "Identifier").bind
            (fun n => truthyImage n.image) with
        | some ident => some ident
        | none => extractTypeName typeName
      | none => none
    match name? with
    | none => none
    | some nm => some { name := nm, value := extractAnnotValue annot }

/-- A token node of the `java-parser` CST. -/
def jTok (name image : String) : JTree :=
  .mk name (some image) none none

/-- A CST node with a single child group holding a single node. -/
def jNode1 (name key : String) (child : JTree) : JTree :=
  .mk name none (some (.cons key (.cons child .nil) .nil)) none

/-- The `fqnOrRefType` subtree of the expression `RequestMethod.POST`:
`fqnOrRefTypePartFirst` holding the `RequestMethod` identifier, a `Dot`
token, and `fqnOrRefTypePartRest` holding the `POST` identifier. -/
def fqnRMPost : JTree :=
  .mk "fqnOrRefType" none (some (
    .cons "fqnOrRefTypePartFirst" (.cons
      (jNode1 "fqnOrRefTypePartFirst" "fqnOrRefTypePartCommon"
        (jNode1 "fqnOrRefTypePartCommon" "Identifier"
          (jTok "Identifier" "RequestMethod"))) .nil)
    (.cons "Dot" (.cons (jTok "Dot" ".") .nil)
    (.cons "fqnOrRefTypePartRest" (.cons
      (jNode1 "fqnOrRefTypePartRest" "fqnOrRefTypePartCommon"
        (jNode1 "fqnOrRefTypePartCommon" "Identifier"
          (jTok "Identifier" "POST"))) .nil) .nil)))) none

/-- The `elementValue` CST of `RequestMethod.POST`: the `java-parser`
expression chain down to `fqnRMPost`. -/
def rmPostValue : JTree :=
  jNode1 "elementValue" "expression"
    (jNode1 "expression" "ternaryExpression"
      (jNode1 "ternaryExpression" "binaryExpression"
        (jNode1 "binaryExpression" "unaryExpression"
          (jNode1 "unaryExpression" "primary"
            (jNode1 "primary" "primaryPrefix"
              (jNode1 "primaryPrefix" "fqnOrRefType" fqnRMPost))))))

/-- The `elementValuePair` CST of `method = RequestMethod.POST`. -/
def rmPair : JTree :=
  .mk "elementValuePair" none (some (
    .cons "Identifier" (.cons (jTok "Identifier" "method") .nil)
    (.cons "Equals" (.cons (jTok "Equals" "=") .nil)
    (.cons "elementValue" (.cons rmPostValue .nil) .nil)))) none

/-- The `annotation` CST of `@RequestMapping(method = RequestMethod.POST)`. -/
def rmAnnot : JTree :=
  .mk "annotation" none (some (
    .cons "At" (.cons (jTok "At" "@") .nil)
    (.cons "typeName" (.cons
      (jNode1 "typeName" "Identifier" (jTok "Identifier" "RequestMapping"))
      .nil)
    (.cons "elementValuePairList" (.cons
      (jNode1 "elementValuePairList" "elementValuePair" rmPair) .nil)
      .nil)))) none

/-! ## Token estimator (`src/utils/token-estimator.ts`) and source reader
(`src/utils/source-reader.ts`) -/

/-- `estimateTokens`: `ceil(chars / 4)`, `0` for the empty string. -/
def estimateTokens (text : String) : Nat :=
  if text.length = 0 then 0 else (text.length + 3) / 4

/-- The default truncation indicator of `truncateToTokenLimit`. -/
def truncationIndicator : String := "\n... [truncated]"

/-- `truncateToTokenLimit` from `src/utils/token-estimator.ts`: return the
text unchanged when it fits; otherwise slice to the character limit left
after the indicator (JS `slice`, so a negative limit counts from the end),
back up to the last newline when it falls in the final 20% of the limit
(`lastNewline > charLimit * 0.8`, the 0.8 modelled exactly), and append the
indicator. -/
def truncateToTokenLimit (text : String) (maxTokens : Int) :
    String × Bool :=
  let estimated : Int := estimateTokens text
  if estimated ≤ maxTokens then (text, false)
  else
    let indicatorTokens : Int := estimateTokens truncationIndicator
    let availableTokens := maxTokens - indicatorTokens
    let charLimit := availableTokens * 4
    let truncated := jsSliceTo text charLimit
    let lastNewline := jsLastIndexOf truncated '\n'
    let truncated :=
      if 5 * lastNewline > 4 * charLimit then jsSliceTo truncated lastNewline
      else truncated
    (truncated ++ truncationIndicator, true)

/-- The on-disk project, modelled as a mapping from project-relative path to
file content. -/
abbrev FileSystem : Type := List (String × String)

/-- `readFileContent` from `src/utils/source-reader.ts` (missing files read
as empty content with an error). -/
def readFileContent (fs : FileSystem) (filePath : String) : String :=
  match fs.find? (fun p => p.1 == filePath) with
  | some p => p.2
  | none => ""

/-- The result of `readSourceLines`. -/
structure SourceRead where
  code : String := ""
  contextBefore : Option String := none
  contextAfter : Option String := none
deriving Repr, DecidableEq

/-- `readSourceLines` from `src/utils/source-reader.ts`: extract 1-based
line ranges with optional context, clamping out-of-range requests to the
file's line count. -/
def readSourceLines (fs : FileSystem) (filePath : String)
    (startLine endLine cb ca : Nat) : SourceRead :=
  match fs.find? (fun p => p.1 == filePath) with
  | none => {}
  | some p =>
    let lines := jsSplit p.2 "\n"
    let totalLines := lines.length
    if startLine < 1 ∨ endLine < 1 then {}
    else
      let startLine := min startLine totalLines
      let endLine := min endLine totalLines
      let startIdx := startLine - 1
      let endIdx := endLine - 1
      let contextBeforeStart := startIdx - cb
      let contextAfterEnd := min (totalLines - 1) (endIdx + ca)
      { code := String.intercalate "\n"
          ((lines.drop startIdx).take (endIdx + 1 - startIdx))
        contextBefore :=
          if cb > 0 ∧ contextBeforeStart < startIdx then
            some (String.intercalate "\n"
              ((lines.drop contextBeforeStart).take (startIdx - contextBeforeStart)))
          else none
        contextAfter :=
          if ca > 0 ∧ endIdx < contextAfterEnd then
            some (String.intercalate "\n"
              ((lines.drop (endIdx + 1)).take (contextAfterEnd - endIdx)))
          else none }

/-- `getSourceCode` from `src/db/schema.ts`, restricted to lookup by node
id as the editing-context stages use it: the node's source slice. -/
def getSourceCodeById (s : Store) (fs : FileSystem) (nodeId : String) :
    Option String :=
  match dbGetNode s nodeId with
  | none => none
  | some node =>
    some (readSourceLines fs node.filePath node.lineStart node.lineEnd 0 0).code

/-! ## The context assembler (`getEditingContext` in `src/db/schema.ts`) -/

/-- One entry of the `imports` slot of the editing context. -/
structure RelevantImport where
  module : String
  symbols : List String
  relevantCode : Option String := none
deriving Repr, DecidableEq

/-- One entry of the `dependents` slot. -/
structure DependentCtx where
  path : String
  usageContext : String
deriving Repr, DecidableEq

/-- One entry of the `related_types` / `similar_functions` slots. -/
structure CodeCtx where
  name : String
  filePath : String
  code : String
deriving Repr, DecidableEq

/-- The result of `getEditingContext`. -/
structure EditingContext where
  targetPath : String
  targetContent : String
  imports : List RelevantImport
  dependents : List DependentCtx
  relatedTypes : List CodeCtx
  similarFunctions : Option (List CodeCtx)
  tokenEstimate : Int
deriving Repr, DecidableEq

/-- JS `[a, b, c].filter(Boolean).join('\n')` over optional snippet parts
(drops missing and empty parts). -/
def joinSnippet (parts : List (Option String)) : String :=
  String.intercalate "\n" ((parts.filterMap id).filter (fun s => s ≠ ""))

/-- `edge.metadata?.line || node.lineStart` (JS `||`: `0` falls through). -/
def usageLineOf (e : GraphEdge) (n : GraphNode) : Nat :=
  match e.metadata.line with
  | some l => if l = 0 then n.lineStart else l
  | none => n.lineStart

/-- The inner symbol loop of the imports stage: for up to three imported
symbols, inline the source of a matching `function`/`class`/`interface`
node from another file while the budget admits it. -/
def importSymbolLoop (s : Store) (fs : FileSystem) (targetPath : String)
    (budget : Int) : List String → Option String × Int → Option String × Int
  | [], st => st
  | symbol :: restSyms, (relevantCode, used) =>
    let symbolNodes := searchNodes s symbol
    let matchingNode := symbolNodes.find? (fun n =>
      n.name == symbol && n.filePath != targetPath &&
      (n.type == "function" || n.type == "class" || n.type == "interface"))
    let st' :=
      match matchingNode with
      | some node =>
        if used < budget then
          match getSourceCodeById s fs node.id with
          | some code =>
            let codeTokens : Int := estimateTokens code
            if used + codeTokens < budget then
              (some (match relevantCode with
                     | some rc => rc ++ "\n\n" ++ code
                     | none => code),
               used + codeTokens)
            else (relevantCode, used)
          | none => (relevantCode, used)
        else (relevantCode, used)
      | none => (relevantCode, used)
    importSymbolLoop s fs targetPath budget restSyms st'

/-- The imports stage of `getEditingContext`: one entry per `import` node of
the file, with inlined source admitted against the shared import budget. -/
def importsStage (s : Store) (fs : FileSystem) (targetPath : String)
    (budget : Int) : List GraphNode → Int → List RelevantImport × Int
  | [], used => ([], used)
  | importNode :: rest, used =>
    let module := (importNode.metadata.source).getD importNode.name
    let symbols := (importNode.metadata.imported).getD [importNode.name]
    let (relevantCode, used') :=
      importSymbolLoop s fs targetPath budget (symbols.take 3) (none, used)
    let (restItems, finalUsed) := importsStage s fs targetPath budget rest used'
    ({ module := module, symbols := symbols, relevantCode := relevantCode } :: restItems,
     finalUsed)

/-- The dependents stage of `getEditingContext`: usage snippets from files
that depend on the target, skipping test files unless requested, stopping
once the budget is reached. -/
def dependentsStage (s : Store) (fs : FileSystem) (includeTests : Bool)
    (budget : Int) : List GraphEdge → Int → List DependentCtx × Int
  | [], used => ([], used)
  | e :: rest, used =>
    if budget ≤ used then ([], used)
    else
      match dbGetNode s e.sourceId with
      | none => dependentsStage s fs includeTests budget rest used
      | some sourceNode =>
        if ¬ includeTests ∧
            (strIncludes sourceNode.filePath ".test." ∨
             strIncludes sourceNode.filePath ".spec." ∨
             strIncludes sourceNode.filePath "__tests__") then
          dependentsStage s fs includeTests budget rest used
        else
          let usageLine := usageLineOf e sourceNode
          let snippet := readSourceLines fs sourceNode.filePath usageLine usageLine 2 2
          let usageContext := joinSnippet
            [snippet.contextBefore, some snippet.code, snippet.contextAfter]
          let contextTokens : Int := estimateTokens usageContext
          if used + contextTokens < budget then
            let (restItems, finalUsed) :=
              dependentsStage s fs includeTests budget rest (used + contextTokens)
            ({ path := sourceNode.filePath, usageContext := usageContext } :: restItems,
             finalUsed)
          else dependentsStage s fs includeTests budget rest used

/-- The related-types stage of `getEditingContext`: source of `interface` /
`class` targets of `uses`/`extends`/`implements` out-edges, admitted against
the type budget. -/
def typesStage (s : Store) (fs : FileSystem) (targetPath : String)
    (budget : Int) : List GraphEdge → Int → List CodeCtx × Int
  | [], used => ([], used)
  | e :: rest, used =>
    if budget ≤ used then ([], used)
    else
      if e.type == "uses" || e.type == "extends" || e.type == "implements" then
        match dbGetNode s e.targetId with
        | some targetNode =>
          if (targetNode.type == "interface" || targetNode.type == "class") &&
              targetNode.filePath != targetPath then
            match getSourceCodeById s fs targetNode.id with
            | some code =>
              let codeTokens : Int := estimateTokens code
              if used + codeTokens < budget then
                let (restItems, finalUsed) :=
                  typesStage s fs targetPath budget rest (used + codeTokens)
                ({ name := targetNode.name, filePath := targetNode.filePath,
                   code := code } :: restItems, finalUsed)
              else typesStage s fs targetPath budget rest used
            | none => typesStage s fs targetPath budget rest used
          else typesStage s fs targetPath budget rest used
        | none => typesStage s fs targetPath budget rest used
      else typesStage s fs targetPath budget rest used

/-- The inner candidate loop of the similar-functions stage: up to two
search hits per task word, `function`/`method` nodes from other files,
admitted against the similar budget. -/
def similarCandidateLoop (s : Store) (fs : FileSystem) (targetPath : String)
    (budget : Int) : List GraphNode → List CodeCtx × Int → List CodeCtx × Int
  | [], st => st
  | node :: rest, (items, used) =>
    let st' :=
      if (node.type == "function" || node.type == "method") &&
          node.filePath != targetPath then
        match getSourceCodeById s fs node.id with
        | some code =>
          let codeTokens : Int := estimateTokens code
          if used + codeTokens < budget then
            (items ++ [{ name := node.name, filePath := node.filePath, code := code }],
             used + codeTokens)
          else (items, used)
        | none => (items, used)
      else (items, used)
    similarCandidateLoop s fs targetPath budget rest st'

/-- The word loop of the similar-functions stage. -/
def similarWordLoop (s : Store) (fs : FileSystem) (targetPath : String)
    (budget : Int) : List String → List CodeCtx × Int → List CodeCtx × Int
  | [], st => st
  | word :: rest, (items, used) =>
    if budget ≤ used then (items, used)
    else
      let st' := similarCandidateLoop s fs targetPath budget
        ((searchNodes s word).take 2) (items, used)
      similarWordLoop s fs targetPath budget rest st'

/-- The task keywords: lower-cased whitespace split, words longer than three
characters, first three. -/
def taskWords (task : String) : List String :=
  (((jsToLower task).split Char.isWhitespace).filter
    (fun w => w.length > 3)).take 3

/-- `getEditingContext` from `src/db/schema.ts`: assemble the target file
(truncated to 60% of the budget), imported-symbol sources (30% of the
remainder), dependent usage snippets (30%), related types (50%), and
optionally similar functions, and report the consumed token estimate.
`Math.floor(x * 0.6)` and friends are modelled as exact flooring division,
matching JS `Math.floor` on negatives. -/
def getEditingContextCore (s : Store) (fs : FileSystem) (filePath : String)
    (task : Option String) (maxTokens : Int) (includeTests : Bool) :
    EditingContext :=
  let content := readFileContent fs filePath
  let targetTokenBudget : Int := Int.fdiv (6 * maxTokens) 10
  let truncatedTarget := (truncateToTokenLimit content targetTokenBudget).1
  let remaining₁ : Int := maxTokens - (estimateTokens truncatedTarget : Int)
  let fileCtx := getFileContext s filePath
  let importNodes := fileCtx.nodes.filter (fun n => n.type == "import")
  let importBudget := Int.fdiv (3 * remaining₁) 10
  let (imports, importUsed) := importsStage s fs filePath importBudget importNodes 0
  let remaining₂ := remaining₁ - importUsed
  let dependentBudget := Int.fdiv (3 * remaining₂) 10
  let (dependents, depUsed) :=
    dependentsStage s fs includeTests dependentBudget fileCtx.incomingEdges 0
  let remaining₃ := remaining₂ - depUsed
  let typeBudget := Int.fdiv (5 * remaining₃) 10
  let (relatedTypes, typeUsed) :=
    typesStage s fs filePath typeBudget fileCtx.outgoingEdges 0
  let remaining₄ := remaining₃ - typeUsed
  let similarFunctions :=
    match task with
    | some t =>
      if remaining₄ > 500 then
        let l := (similarWordLoop s fs filePath remaining₄ (taskWords t) ([], 0)).1
        if l.isEmpty then none else some l
      else none
    | none => none
  { targetPath := filePath
    targetContent := truncatedTarget
    imports := imports
    dependents := dependents
    relatedTypes := relatedTypes
    similarFunctions := similarFunctions
    tokenEstimate := maxTokens - remaining₄ }

/-- `getEditingContext` proper: apply the `maxTokens || 8000` default (JS
`||`, so an explicit `0` also falls back to `8000`). -/
def getEditingContext (s : Store) (fs : FileSystem) (filePath : String)
    (task : Option String) (maxTokens? : Option Nat) (includeTests : Bool) :
    EditingContext :=
  let maxTokens : Int := match maxTokens? with
    | some m => if m = 0 then 8000 else m
    | none => 8000
  getEditingContextCore s fs filePath task maxTokens includeTests

/-! ## Concrete instances used by witnesses and counterexamples -/

/-- A top-level `helper` function node in `src/a.ts`. -/
def exHelperA : GraphNode :=
  { id := "function_0a1b2c3d4e5f", type := "function", name := "helper",
    filePath := "src/a.ts", lineStart := 1, lineEnd := 2,
    language := "typescript" }

/-- A second top-level `helper` function node, in `src/b.ts`. -/
def exHelperB : GraphNode :=
  { id := "function_9f8e7d6c5b4a", type := "function", name := "helper",
    filePath := "src/b.ts", lineStart := 1, lineEnd := 2,
    language := "typescript" }

/-- A caller in a third file, importing neither helper. -/
def exCaller : GraphNode :=
  { id := "function_123456789abc", type := "function", name := "caller",
    filePath := "src/c.ts", lineStart := 1, lineEnd := 3,
    language := "typescript" }

/-- The unresolved `calls` edge emitted for `helper()` in the caller. -/
def exCallEdge : GraphEdge :=
  { id := "edge_00aa11bb22cc", sourceId := "function_123456789abc",
    targetId := "ref:function:helper", type := "calls",
    metadata := { unresolved := some true, targetName := some "helper" } }

/-- The ambiguous-resolution store: two equally plausible `helper`
definitions and one call site. -/
def exAmbStore : Store :=
  { nodes := [exHelperA, exHelperB, exCaller], edges := [exCallEdge] }

/-- A caller living in the same file as `exHelperA`. -/
def exUser : GraphNode :=
  { id := "function_ddd000000000", type := "function", name := "user",
    filePath := "src/a.ts", lineStart := 5, lineEnd := 6,
    language := "typescript" }

/-- The unresolved `calls` edge from `exUser` to `helper`. -/
def exResEdge : GraphEdge :=
  { id := "edge_dd00ee11ff22", sourceId := "function_ddd000000000",
    targetId := "ref:function:helper", type := "calls",
    metadata := { unresolved := some true, targetName := some "helper" } }

/-- A store whose single unresolved edge resolves cleanly (same-file
candidate wins the ranking). -/
def exResStore : Store :=
  { nodes := [exHelperA, exHelperB, exUser], edges := [exResEdge] }

/-- A node in the file `f.py` (to be deleted). -/
def wNodeF : GraphNode :=
  { id := "function_f00000000000", type := "function", name := "f",
    filePath := "f.py", lineStart := 1, lineEnd := 2, language := "python" }

/-- A node in the surviving file `g.py`. -/
def wNodeG : GraphNode :=
  { id := "function_g00000000000", type := "function", name := "g",
    filePath := "g.py", lineStart := 1, lineEnd := 2, language := "python" }

/-- An edge inside `g.py` that must survive deleting `f.py`. -/
def wEdgeKeep : GraphEdge :=
  { id := "edge_keep00000000", sourceId := "function_g00000000000",
    targetId := "ref:function:z", type := "calls",
    metadata := { unresolved := some true, targetName := some "z" } }

/-- An edge from `g.py` into `f.py` that must be removed with `f.py`. -/
def wEdgeDrop : GraphEdge :=
  { id := "edge_drop00000000", sourceId := "function_g00000000000",
    targetId := "function_f00000000000", type := "calls" }

/-- The store for the file-deletion witness. -/
def wDelStore : Store :=
  { nodes := [wNodeF, wNodeG], edges := [wEdgeKeep, wEdgeDrop] }

/-- A store state holding an edge whose `targetId` starts with an ASCII-case
variant of the placeholder prefix but not with `ref:` itself. -/
def c3Store : Store :=
  { nodes := [],
    edges := [{ id := "edge_c3", sourceId := "a", targetId := "REF:x",
                type := "calls" }] }

/-- The tree-sitter shape of the Python statement `import os`: an
`import_statement` node with an `import` keyword child and a `dotted_name`
child. -/
def osImportNode : PyNode :=
  .mk "import_statement" "import os" .nil
    (.cons (.mk "import" "import" .nil .nil 0 0)
      (.cons (.mk "dotted_name" "os" .nil .nil 0 0) .nil))
    0 0

/-- A 100-character file with no newline (for the budget counterexample). -/
def fs100 : FileSystem :=
  [("src/t.ts",
    "aaaaaaaaaaaaaaaaaaaaaaaaaaaaaaaaaaaaaaaaaaaaaaaaaaaaaaaaaaaaaaaaaaaaaaaaaaaaaaaaaaaaaaaaaaaaaaaaaa")]

/-- A lowercase hex digit. -/
def isHexChar (c : Char) : Bool :=
  ('0' ≤ c && c ≤ '9') || ('a' ≤ c && c ≤ 'f')

/-- The per-edge effect of one `resolve()` run on a store row, given the
run's node snapshot and symbol index: resolved rows get the winning target
id, `unresolved := false` and `resolvedFrom`; ambiguous rows get
`ambiguousCandidates`; other rows are untouched.  (`resolveStore` equals a
pointwise application of this map when edge ids are unique; see
`resolveStore_edges_eq_map`.) -/
def transformEdge (nodes : List GraphNode) (idx : SymbolIndex)
    (e : GraphEdge) : GraphEdge :=
  if isUnresolvedRow e then
    let o := resolveEdge nodes idx e
    if o.resolved then
      let md := { e.metadata with unresolved := some false, resolvedFrom := some e.targetId }
      { e with targetId := (o.targetId).getD "", metadata := md }
    else if o.ambiguous then
      let md := { e.metadata with ambiguousCandidates := some ((o.candidates).getD []) }
      { e with metadata := md }
    else e
  else e

/-- The `targetName` metadata key of an edge (the call-name key the
extractors deduplicate on). -/
def tnOf (e : GraphEdge) : Option String := e.metadata.targetName

instance : Inhabited SymbolEntry :=
  ⟨{ nodeId := "", name := "", fullName := "", type := "", filePath := "",
     language := "" }⟩

instance : Inhabited ScoredEntry := ⟨{ entry := default, score := 0 }⟩

/-- A symbol entry whose `nodeId` is the id of one of the given nodes
(every entry of the symbol index is of this shape). -/
def EntryFromNodes (nodes : List GraphNode) (ent : SymbolEntry) : Prop :=
  ∃ n ∈ nodes, ent.nodeId = n.id

/-- The invariant threaded through the call collectors: emitted edges carry
pairwise-distinct `targetName`s, each recorded in the seen set. -/
def CallInv (st : CallState) : Prop :=
  (st.2.map tnOf).Nodup ∧ ∀ nm, some nm ∈ st.2.map tnOf → nm ∈ st.1

/-! ## Theorems -/

/-- C2: after `deleteByFile(p)` (`deleteNodesByFile`), no node with
`filePath = p` remains, and no edge remains whose `sourceId` or `targetId`
is the id of any node that had `filePath = p`: every edge incident in either
direction to a node of the deleted file is removed. -/
theorem claim_C2_delete_no_orphans (s : Store) (p : String) :
    (∀ n ∈ (deleteNodesByFile s p).nodes, n.filePath ≠ p) ∧
    (∀ e ∈ (deleteNodesByFile s p).edges, ∀ n ∈ s.nodes, n.filePath = p →
      e.sourceId ≠ n.id ∧ e.targetId ≠ n.id) := by
  constructor
  · intro n hn
    have h := (List.mem_filter.mp hn).2
    simpa using h
  · intro e he n hn hfp
    by_cases hlen : 0 < (List.filter (fun n => n.filePath == p) s.nodes).length
    · simp [deleteNodesByFile, hlen] at he
      exact ⟨fun hs => he.2.1 n hn hfp hs.symm, fun ht => he.2.2 n hn hfp ht.symm⟩
    · exfalso
      have hnil : List.filter (fun n => n.filePath == p) s.nodes = [] := by
        have := Nat.eq_zero_of_not_pos hlen
        exact List.length_eq_zero.mp this
      have : n ∈ List.filter (fun n => n.filePath == p) s.nodes :=
        List.mem_filter.mpr ⟨hn, by simpa using hfp⟩
      rw [hnil] at this
      simp at this

/-- Witness for C2: in the concrete store, the surviving edge of `g.py`
touches no node of the deleted file `f.py`. -/
theorem claim_C2_witness :
    wEdgeKeep ∈ (deleteNodesByFile wDelStore "f.py").edges ∧
    wNodeF ∈ wDelStore.nodes ∧ wNodeF.filePath = "f.py" ∧
    wEdgeKeep.sourceId ≠ wNodeF.id ∧ wEdgeKeep.targetId ≠ wNodeF.id := by
  refine ⟨by decide, by decide, rfl, ?_, ?_⟩
  · exact ((claim_C2_delete_no_orphans wDelStore "f.py").2 wEdgeKeep
      (by decide) wNodeF (by decide) rfl).1
  · exact ((claim_C2_delete_no_orphans wDelStore "f.py").2 wEdgeKeep
      (by decide) wNodeF (by decide) rfl).2

/-- Counterexample for C3: SQLite's `LIKE 'ref:%'` is ASCII-case-insensitive,
so in the store holding one edge with `targetId = "REF:x"` the reported
`unresolved` count is 1 while no `targetId` starts with the exact string
`ref:`. -/
theorem claim_C3_counterexample :
    (getResolutionStats c3Store).unresolved = 1 ∧
    c3Store.edges.countP (fun e => strStartsWith e.targetId "ref:") = 0 ∧
    (getResolutionStats c3Store).unresolved ≠
      c3Store.edges.countP (fun e => strStartsWith e.targetId "ref:") := by
  refine ⟨by decide, by decide, by decide⟩

/-- C3 (amended): in every store state, `resolutionStats` returns `total`
equal to the number of edges, `unresolved` equal to the number of edges
whose `targetId` starts with `ref:` up to ASCII case (the SQLite `LIKE`
semantics of the query), and `resolved = total − unresolved`. -/
theorem claim_C3_amended (s : Store) :
    (getResolutionStats s).total = s.edges.length ∧
    (getResolutionStats s).unresolved =
      s.edges.countP (fun e => likeRef e.targetId) ∧
    (getResolutionStats s).resolved =
      (getResolutionStats s).total - (getResolutionStats s).unresolved := by
  refine ⟨rfl, ?_, rfl⟩
  simp [getResolutionStats, List.countP_eq_length_filter]

/-- C7: node ids are a function of `(filePath, type, name, lineStart)` alone
(independent of line end, language and metadata), and edge ids a function of
`(sourceId, targetId, type)` alone, so re-running an extractor on the same
input reproduces the same id sets. -/
theorem claim_C7_id_determinism :
    (∀ lang₁ lang₂ fp ty nm ls le₁ le₂ md₁ md₂,
      (createNode lang₁ fp ty nm ls le₁ md₁).id = generateNodeId fp ty nm ls ∧
      (createNode lang₁ fp ty nm ls le₁ md₁).id =
        (createNode lang₂ fp ty nm ls le₂ md₂).id) ∧
    (∀ sid tid ty md₁ md₂,
      (createEdge sid tid ty md₁).id = generateEdgeId sid tid ty ∧
      (createEdge sid tid ty md₁).id = (createEdge sid tid ty md₂).id) :=
  ⟨fun _ _ _ _ _ _ _ _ _ _ => ⟨rfl, rfl⟩, fun _ _ _ _ _ => ⟨rfl, rfl⟩⟩

/-- `toList` distributes over string append. -/
theorem toList_append (s t : String) : (s ++ t).toList = s.toList ++ t.toList := by
  simp [String.toList]

/-- `toHex12` always renders exactly 12 characters. -/
theorem toHex12_length (n : Nat) : (toHex12 n).toList.length = 12 := by
  simp [toHex12, String.toList]

/-- Every digit below 16 renders as a lowercase hex character. -/
theorem hexDigit_isHex (n : Nat) (h : n < 16) : isHexChar (hexDigit n) = true := by
  interval_cases n <;> decide

/-- Every character of a `toHex12` rendering is a lowercase hex digit. -/
theorem toHex12_chars (n : Nat) : ∀ c ∈ (toHex12 n).toList, isHexChar c = true := by
  intro c hc
  simp [toHex12, String.toList] at hc
  obtain ⟨i, _, rfl⟩ := hc
  exact hexDigit_isHex _ (Nat.mod_lt _ (by norm_num))

/-- `md5hex12` output: 12 lowercase hex characters. -/
theorem md5hex12_shape (s : String) :
    (md5hex12 s).toList.length = 12 ∧ ∀ c ∈ (md5hex12 s).toList, isHexChar c = true :=
  ⟨toHex12_length _, toHex12_chars _⟩

/-- A string whose first four characters are a fixed non-`ref:` prefix does
not satisfy the `LIKE 'ref:%'` test, whatever follows. -/
theorem likeRef_append_false (pre suf : String)
    (h4 : 4 ≤ pre.toList.length)
    (hpre : ((pre.toList.take 4).map asciiLower == ['r', 'e', 'f', ':']) = false) :
    likeRef (pre ++ suf) = false := by
  unfold likeRef
  rw [toList_append, List.take_append_of_le_length h4]
  exact hpre

/-- An exact `ref:` prefix implies a `LIKE 'ref:%'` match. -/
theorem strStartsWith_ref_likeRef (s : String)
    (h : strStartsWith s "ref:" = true) : likeRef s = true := by
  have h4 : "ref:".toList = ['r', 'e', 'f', ':'] := rfl
  unfold strStartsWith at h
  rw [h4] at h
  have h' : s.toList.take 4 = ['r', 'e', 'f', ':'] := by
    simpa using h
  unfold likeRef
  rw [h']
  decide

/-- C10: every node id has the form `<type>_<12-hex-digit-hash>` and every
edge id the form `edge_<12-hex-digit-hash>`; no such id matches the textual
placeholder test `target_id LIKE 'ref:%'` (even up to ASCII case), nor
starts with `ref:`; hence `getUnresolvedEdges` never selects an edge whose
target is a generated node id and whose metadata does not mark it
unresolved. -/
theorem claim_C10_id_shape (fp ty nm : String) (ln : Nat)
    (hty : ty ∈ validNodeTypes) :
    (generateNodeId fp ty nm ln =
      ty ++ "_" ++ md5hex12 (fp ++ ":" ++ ty ++ ":" ++ nm ++ ":" ++ toString ln) ∧
     (md5hex12 (fp ++ ":" ++ ty ++ ":" ++ nm ++ ":" ++ toString ln)).toList.length = 12 ∧
     (∀ c ∈ (md5hex12 (fp ++ ":" ++ ty ++ ":" ++ nm ++ ":" ++ toString ln)).toList,
        isHexChar c = true)) ∧
    likeRef (generateNodeId fp ty nm ln) = false ∧
    strStartsWith (generateNodeId fp ty nm ln) "ref:" = false ∧
    (∀ sid tid ety,
      generateEdgeId sid tid ety =
        "edge_" ++ md5hex12 (sid ++ ":" ++ tid ++ ":" ++ ety) ∧
      likeRef (generateEdgeId sid tid ety) = false ∧
      strStartsWith (generateEdgeId sid tid ety) "ref:" = false) ∧
    (∀ (s : Store) (e : GraphEdge),
      e.targetId = generateNodeId fp ty nm ln →
      e.metadata.unresolved ≠ some true →
      e ∉ getUnresolvedEdges s) := by
  have hlike : likeRef (generateNodeId fp ty nm ln) = false := by
    unfold generateNodeId
    rw [String.append_assoc]
    apply likeRef_append_false
    · fin_cases hty <;> decide
    · fin_cases hty <;> decide
  have hstart : strStartsWith (generateNodeId fp ty nm ln) "ref:" = false := by
    by_contra h
    have h' : strStartsWith (generateNodeId fp ty nm ln) "ref:" = true := by
      revert h
      cases strStartsWith (generateNodeId fp ty nm ln) "ref:" <;> simp
    rw [strStartsWith_ref_likeRef _ h'] at hlike
    cases hlike
  have hedge : ∀ sid tid ety,
      generateEdgeId sid tid ety =
        "edge_" ++ md5hex12 (sid ++ ":" ++ tid ++ ":" ++ ety) ∧
      likeRef (generateEdgeId sid tid ety) = false ∧
      strStartsWith (generateEdgeId sid tid ety) "ref:" = false := by
    intro sid tid ety
    have hl : likeRef (generateEdgeId sid tid ety) = false := by
      unfold generateEdgeId
      exact likeRef_append_false "edge_" _ (by decide) (by decide)
    refine ⟨rfl, hl, ?_⟩
    by_contra h
    have h' : strStartsWith (generateEdgeId sid tid ety) "ref:" = true := by
      revert h
      cases strStartsWith (generateEdgeId sid tid ety) "ref:" <;> simp
    rw [strStartsWith_ref_likeRef _ h'] at hl
    cases hl
  refine ⟨⟨rfl, (md5hex12_shape _).1, (md5hex12_shape _).2⟩, hlike, hstart, hedge, ?_⟩
  intro s e htid hunres hmem
  have hrow := (List.mem_filter.mp hmem).2
  unfold isUnresolvedRow at hrow
  rw [htid, hlike] at hrow
  simp at hrow
  exact hunres (by simpa using hrow)

/-- Witness for C10: the id of the `helper` function node of the ambiguity
example is well-formed and never matches the placeholder test. -/
theorem claim_C10_witness :
    "function" ∈ validNodeTypes ∧
    likeRef (generateNodeId "src/a.ts" "function" "helper" 1) = false ∧
    strStartsWith (generateNodeId "src/a.ts" "function" "helper" 1) "ref:" = false := by
  refine ⟨by decide, ?_, ?_⟩
  · exact (claim_C10_id_shape "src/a.ts" "function" "helper" 1 (by decide)).2.1
  · exact (claim_C10_id_shape "src/a.ts" "function" "helper" 1 (by decide)).2.2.1

/-- Replacing a nonempty pattern at the head of `pat ++ x` by nothing
yields `x` (JS first-occurrence `replace`). -/
theorem replaceFirstAux_starts (pat x : List Char) (hne : pat ≠ []) :
    replaceFirstAux pat [] (pat ++ x) = x := by
  cases pat with
  | nil => exact absurd rfl hne
  | cons c cs =>
    show replaceFirstAux (c :: cs) [] (c :: (cs ++ x)) = x
    unfold replaceFirstAux
    have htake : (c :: (cs ++ x)).take (c :: cs).length = c :: cs :=
      List.take_left (c :: cs) x
    rw [htake]
    simp only [beq_self_eq_true, if_true, List.nil_append]
    have hdrop : ((c :: cs) ++ x).drop (c :: cs).length = x := List.drop_left _ _
    simpa using hdrop

/-- `jsReplaceFirst (p ++ x) p "" = x` for nonempty `p`. -/
theorem jsReplaceFirst_starts (p x : String) (hne : p.toList ≠ []) :
    jsReplaceFirst (p ++ x) p "" = x := by
  unfold jsReplaceFirst
  rw [toList_append]
  rw [show ("" : String).toList = ([] : List Char) from rfl]
  rw [replaceFirstAux_starts p.toList x.toList hne]
  rfl

/-- C4 (code bug): on the `java-parser` CST of
`@RequestMapping(method = RequestMethod.POST)`, the depth-first literal
search of `extractElementValue` returns the first `Identifier` token image
`"RequestMethod"` — never the dotted string `"RequestMethod.X"` that the
`replace('RequestMethod.', '')` in `extractHttpMethod` was written to
handle — so the annotation record maps `method` to `"RequestMethod"` and
the recorded HTTP method is `"REQUESTMETHOD"`, not the verb `POST`. -/
theorem claim_C4_code_bug :
    extractElementValue rmPostValue = some "RequestMethod" ∧
    extractAnnotInfo rmAnnot =
      some { name := "RequestMapping", value := some (.record [("method", "RequestMethod")]) } ∧
    extractHttpMethod { name := "RequestMapping", value := some (.record [("method", "RequestMethod")]) } =
      some "REQUESTMETHOD" ∧
    extractHttpMethod { name := "RequestMapping", value := some (.record [("method", "RequestMethod")]) } ≠
      some "POST" := by
  refine ⟨by decide, by decide, by decide, by decide⟩

/-- `pyEmitCall` preserves the dedup invariant and only grows the seen set. -/
theorem pyEmitCall_inv (fid : String) (n : PyNode) (st : CallState)
    (h : CallInv st) :
    CallInv (pyEmitCall fid n st) ∧ st.1 ⊆ (pyEmitCall fid n st).1 := by
  unfold pyEmitCall
  cases hf : n.childForFieldName "function" with
  | none => exact ⟨h, fun a ha => ha⟩
  | some funcPart =>
    dsimp only
    by_cases hcond : ¬ pyBuiltins.contains ((jsSplit funcPart.text ".").headD "") ∧
        ¬ st.1.contains funcPart.text
    · rw [if_pos hcond]
      have hnot : funcPart.text ∉ st.1 := by simpa using hcond.2
      have hnew : some funcPart.text ∉ st.2.map tnOf := fun hmem =>
        hnot (h.2 _ hmem)
      refine ⟨⟨?_, ?_⟩, ?_⟩
      · have : (st.2.map tnOf ++ [some funcPart.text]).Nodup := by
          simp [List.nodup_append, hnew, h.1]
        simpa [tnOf, createEdge] using this
      · intro nm hnm
        rw [List.map_append] at hnm
        rcases List.mem_append.mp hnm with hl | hr
        · exact List.mem_append.mpr (Or.inl (h.2 _ hl))
        · have heq : some nm = some funcPart.text := by
            simpa [tnOf, createEdge] using hr
          exact List.mem_append.mpr (Or.inr (by simp [Option.some.inj heq]))
      · intro a ha
        exact List.mem_append.mpr (Or.inl ha)
    · rw [if_neg hcond]
      exact ⟨h, fun a ha => ha⟩

mutual
/-- The Python call traversal preserves the dedup invariant (per node). -/
theorem pyCallsNode_inv (fid : String) (n : PyNode) (st : CallState)
    (h : CallInv st) :
    CallInv (pyCallsNode fid n st) ∧ st.1 ⊆ (pyCallsNode fid n st).1 := by
  match n with
  | .mk ty tx fields children sr er =>
    unfold pyCallsNode
    by_cases hcall : (ty == "call") = true
    · rw [if_pos hcall]
      have h₁ := pyEmitCall_inv fid (.mk ty tx fields children sr er) st h
      by_cases hskip : (ty == "function_definition" || ty == "class_definition") = true
      · rw [if_pos hskip]; exact h₁
      · rw [if_neg hskip]
        have h₂ := pyCallsForest_inv fid children _ h₁.1
        exact ⟨h₂.1, List.Subset.trans h₁.2 h₂.2⟩
    · rw [if_neg hcall]
      by_cases hskip : (ty == "function_definition" || ty == "class_definition") = true
      · rw [if_pos hskip]; exact ⟨h, fun a ha => ha⟩
      · rw [if_neg hskip]
        exact pyCallsForest_inv fid children st h

/-- The Python call traversal preserves the dedup invariant (per forest). -/
theorem pyCallsForest_inv (fid : String) (f : PyForest) (st : CallState)
    (h : CallInv st) :
    CallInv (pyCallsForest fid f st) ∧ st.1 ⊆ (pyCallsForest fid f st).1 := by
  match f with
  | .nil => exact ⟨h, fun a ha => ha⟩
  | .cons hd tl =>
    unfold pyCallsForest
    have h₁ := pyCallsNode_inv fid hd st h
    have h₂ := pyCallsForest_inv fid tl _ h₁.1
    exact ⟨h₂.1, List.Subset.trans h₁.2 h₂.2⟩
end

/-- `jEmitCall` preserves the dedup invariant and only grows the seen set. -/
theorem jEmitCall_inv (mid : String) (t : JTree) (st : CallState)
    (h : CallInv st) :
    CallInv (jEmitCall mid t st) ∧ st.1 ⊆ (jEmitCall mid t st).1 := by
  unfold jEmitCall
  cases hc : extractMethodCallName t with
  | none => exact ⟨h, fun a ha => ha⟩
  | some callName =>
    dsimp only
    by_cases hseen : st.1.contains callName
    · rw [if_pos hseen]
      exact ⟨h, fun a ha => ha⟩
    · rw [if_neg hseen]
      have hnot : callName ∉ st.1 := by simpa using hseen
      have hnew : some callName ∉ st.2.map tnOf := fun hmem => hnot (h.2 _ hmem)
      refine ⟨⟨?_, ?_⟩, ?_⟩
      · have : (st.2.map tnOf ++ [some callName]).Nodup := by
          simp [List.nodup_append, hnew, h.1]
        simpa [tnOf, createEdge] using this
      · intro nm hnm
        rw [List.map_append] at hnm
        rcases List.mem_append.mp hnm with hl | hr
        · exact List.mem_append.mpr (Or.inl (h.2 _ hl))
        · have heq : some nm = some callName := by
            simpa [tnOf, createEdge] using hr
          exact List.mem_append.mpr (Or.inr (by simp [Option.some.inj heq]))
      · intro a ha
        exact List.mem_append.mpr (Or.inl ha)

mutual
/-- The Java call traversal preserves the dedup invariant (per node). -/
theorem jCallsNode_inv (mid : String) (t : JTree) (st : CallState)
    (h : CallInv st) :
    CallInv (jCallsNode mid t st) ∧ st.1 ⊆ (jCallsNode mid t st).1 := by
  match t with
  | .mk nm img ch lc =>
    cases ch with
    | none =>
      exact ⟨h, fun a ha => ha⟩
    | some gs =>
      show CallInv (jCallsGroups mid gs
          (if (nm == "methodInvocation") = true then
            jEmitCall mid (JTree.mk nm img (some gs) lc) st else st)) ∧
        st.1 ⊆ (jCallsGroups mid gs
          (if (nm == "methodInvocation") = true then
            jEmitCall mid (JTree.mk nm img (some gs) lc) st else st)).1
      by_cases hinv : (nm == "methodInvocation") = true
      · rw [if_pos hinv]
        have h₁ := jEmitCall_inv mid (.mk nm img (some gs) lc) st h
        have h₂ := jCallsGroups_inv mid gs _ h₁.1
        exact ⟨h₂.1, List.Subset.trans h₁.2 h₂.2⟩
      · rw [if_neg hinv]
        exact jCallsGroups_inv mid gs st h

/-- The Java call traversal preserves the dedup invariant (per group list). -/
theorem jCallsGroups_inv (mid : String) (gs : JGroups) (st : CallState)
    (h : CallInv st) :
    CallInv (jCallsGroups mid gs st) ∧ st.1 ⊆ (jCallsGroups mid gs st).1 := by
  match gs with
  | .nil => exact ⟨h, fun a ha => ha⟩
  | .cons key items rest =>
    unfold jCallsGroups
    have h₁ := jCallsForest_inv mid items st h
    have h₂ := jCallsGroups_inv mid rest _ h₁.1
    exact ⟨h₂.1, List.Subset.trans h₁.2 h₂.2⟩

/-- The Java call traversal preserves the dedup invariant (per forest). -/
theorem jCallsForest_inv (mid : String) (f : JForest) (st : CallState)
    (h : CallInv st) :
    CallInv (jCallsForest mid f st) ∧ st.1 ⊆ (jCallsForest mid f st).1 := by
  match f with
  | .nil => exact ⟨h, fun a ha => ha⟩
  | .cons hd tl =>
    unfold jCallsForest
    have h₁ := jCallsNode_inv mid hd st h
    have h₂ := jCallsForest_inv mid tl _ h₁.1
    exact ⟨h₂.1, List.Subset.trans h₁.2 h₂.2⟩
end

/-- The TS call fold preserves the dedup invariant. -/
theorem tsCallsFold_inv (pid : String) :
    ∀ (calls : List TsCallExpr) (st : CallState), CallInv st →
      CallInv (calls.foldl
        (fun (st : List String × List GraphEdge) call =>
          if call.isIdentifier || call.isPropAccess then
            let callName := call.text
            if st.1.contains callName then st
            else
              (st.1 ++ [callName],
               st.2 ++ [createEdge pid ("ref:function:" ++ callName) "calls"
                 { unresolved := some true, targetName := some callName,
                   line := some call.startLine }])
          else st)
        st) := by
  intro calls
  induction calls with
  | nil => intro st h; exact h
  | cons call rest ih =>
    intro st h
    rw [List.foldl_cons]
    apply ih
    by_cases hkind : (call.isIdentifier || call.isPropAccess) = true
    · rw [if_pos hkind]
      dsimp only
      by_cases hseen : st.1.contains call.text
      · rw [if_pos hseen]; exact h
      · rw [if_neg hseen]
        have hnot : call.text ∉ st.1 := by simpa using hseen
        have hnew : some call.text ∉ st.2.map tnOf := fun hmem => hnot (h.2 _ hmem)
        refine ⟨?_, ?_⟩
        · have : (st.2.map tnOf ++ [some call.text]).Nodup := by
            simp [List.nodup_append, hnew, h.1]
          simpa [tnOf, createEdge] using this
        · intro nm hnm
          rw [List.map_append] at hnm
          rcases List.mem_append.mp hnm with hl | hr
          · exact List.mem_append.mpr (Or.inl (h.2 _ hl))
          · have heq : some nm = some call.text := by
              simpa [tnOf, createEdge] using hr
            exact List.mem_append.mpr (Or.inr (by simp [Option.some.inj heq]))
    · rw [if_neg hkind]; exact h

/-- C8: within one function, method or arrow-function body, each of the
three extractors emits at most one `calls` edge per distinct call name: the
`targetName`s of the emitted edges are pairwise distinct for the TS/JS call
collector, the Python body traversal, and the Java body traversal. -/
theorem claim_C8_call_dedup :
    (∀ (pid : String) (calls : List TsCallExpr),
      ((parseCallExpressions pid calls).map tnOf).Nodup) ∧
    (∀ (body : PyNode) (fid : String),
      ((parseFunctionCalls body fid).map tnOf).Nodup) ∧
    (∀ (body : JTree) (mid : String),
      ((parseMethodBodyForCalls body mid).map tnOf).Nodup) := by
  have hinv0 : CallInv ([], []) := ⟨List.nodup_nil, by intro nm h; simp at h⟩
  refine ⟨?_, ?_, ?_⟩
  · intro pid calls
    exact (tsCallsFold_inv pid calls ([], []) hinv0).1
  · intro body fid
    exact (pyCallsNode_inv fid body ([], []) hinv0).1.1
  · intro body mid
    exact (jCallsNode_inv mid body ([], []) hinv0).1.1

/-- `rankCandidates` preserves the number of candidates. -/
theorem rankCandidates_length (imports : List ImportInfo)
    (candidates : List SymbolEntry) (src : GraphNode) (tn : String) :
    (rankCandidates imports candidates src tn).length = candidates.length := by
  unfold rankCandidates
  rw [(List.perm_insertionSort _ _).length_eq, List.length_map]

/-- The ranked list is sorted by descending score. -/
theorem rankCandidates_sorted (imports : List ImportInfo)
    (candidates : List SymbolEntry) (src : GraphNode) (tn : String) :
    (rankCandidates imports candidates src tn).Pairwise
      (fun a b => b.score ≤ a.score) := by
  have h := List.sorted_insertionSort rankRel
    ((candidates.map (fun e =>
      ({ entry := e,
         score := calculateScore imports e src tn } : ScoredEntry))))
  exact h

/-- C1: when the candidate set (after edge-type filtering) for an edge with
a `targetName` has at least two entries, `resolveEdge` resolves to the
top-scored candidate exactly when its score exceeds the runner-up score by
strictly more than 10; otherwise it reports ambiguity with the top five
candidates rendered as `"fullName (filePath)"` (recorded on the edge as
`metadata.ambiguousCandidates` by the `resolve()` loop). -/
theorem claim_C1_ambiguity_gap (s : Store) (edge : GraphEdge) (tn : String)
    (htn : edge.metadata.targetName = some tn) (hne : (tn == "") = false)
    (src : GraphNode)
    (hsrc : s.nodes.find? (fun n => n.id == edge.sourceId) = some src)
    (hlen : 2 ≤ (findCandidates (buildSymbolIndex s.nodes)
      (fileImportsOf s.nodes src.filePath) tn src edge.type).length) :
    (∀ r ∈ rankCandidates (fileImportsOf s.nodes src.filePath)
        (findCandidates (buildSymbolIndex s.nodes)
          (fileImportsOf s.nodes src.filePath) tn src edge.type) src tn,
      r.score ≤ ((rankCandidates (fileImportsOf s.nodes src.filePath)
        (findCandidates (buildSymbolIndex s.nodes)
          (fileImportsOf s.nodes src.filePath) tn src edge.type) src tn).headD
          default).score) ∧
    (∀ r ∈ (rankCandidates (fileImportsOf s.nodes src.filePath)
        (findCandidates (buildSymbolIndex s.nodes)
          (fileImportsOf s.nodes src.filePath) tn src edge.type) src tn).drop 1,
      r.score ≤ (((rankCandidates (fileImportsOf s.nodes src.filePath)
        (findCandidates (buildSymbolIndex s.nodes)
          (fileImportsOf s.nodes src.filePath) tn src edge.type) src tn).drop 1).headD
          default).score) ∧
    resolveEdge s.nodes (buildSymbolIndex s.nodes) edge =
      (if (((rankCandidates (fileImportsOf s.nodes src.filePath)
              (findCandidates (buildSymbolIndex s.nodes)
                (fileImportsOf s.nodes src.filePath) tn src edge.type) src tn).drop 1).headD
                default).score + 10 <
            ((rankCandidates (fileImportsOf s.nodes src.filePath)
              (findCandidates (buildSymbolIndex s.nodes)
                (fileImportsOf s.nodes src.filePath) tn src edge.type) src tn).headD
                default).score then
        { resolved := true, ambiguous := false,
          targetId := some ((rankCandidates (fileImportsOf s.nodes src.filePath)
            (findCandidates (buildSymbolIndex s.nodes)
              (fileImportsOf s.nodes src.filePath) tn src edge.type) src tn).headD
                default).entry.nodeId }
      else
        { resolved := false, ambiguous := true,
          candidates := some (((rankCandidates (fileImportsOf s.nodes src.filePath)
            (findCandidates (buildSymbolIndex s.nodes)
              (fileImportsOf s.nodes src.filePath) tn src edge.type) src tn).take 5).map
                fmtCandidate) }) := by
  set idx := buildSymbolIndex s.nodes with hidx
  set imports := fileImportsOf s.nodes src.filePath with himports
  set candidates := findCandidates idx imports tn src edge.type with hcands
  set ranked := rankCandidates imports candidates src tn with hranked
  have hrlen : ranked.length = candidates.length := rankCandidates_length _ _ _ _
  obtain ⟨r0, r1, rest, hr⟩ : ∃ r0 r1 rest, ranked = r0 :: r1 :: rest := by
    match hx : ranked with
    | [] => exfalso; simp at hrlen; omega
    | [a] => exfalso; simp at hrlen; omega
    | a :: b :: t => exact ⟨a, b, t, rfl⟩
  have hsorted := rankCandidates_sorted imports candidates src tn
  rw [← hranked] at hsorted
  have htop : ∀ r ∈ ranked, r.score ≤ (ranked.headD default).score := by
    rw [hr]
    intro r hrmem
    rcases hrmem with _ | hrmem'
    · simp
    · have := List.rel_of_pairwise_cons (hr ▸ hsorted) (by assumption)
      simpa using this
  have hsecond : ∀ r ∈ ranked.drop 1,
      r.score ≤ ((ranked.drop 1).headD default).score := by
    rw [hr]
    intro r hrmem
    simp only [List.drop_succ_cons, List.drop_zero] at hrmem ⊢
    rcases hrmem with _ | hrmem'
    · simp
    · have hs' := (List.pairwise_cons.mp (hr ▸ hsorted)).2
      have := List.rel_of_pairwise_cons hs' (by assumption)
      simpa using this
  refine ⟨htop, hsecond, ?_⟩
  have h0 : ¬ candidates.length = 0 := by omega
  have h1 : ¬ candidates.length = 1 := by omega
  unfold resolveEdge
  simp only [htn, hne, hsrc, ← himports, ← hcands, ← hranked, Bool.false_eq_true,
    if_false, h0, if_false, h1]
  rw [hr]
  simp only [List.headD_cons, List.drop_succ_cons, List.drop_zero]

/-- Witness for C1: the two-`helper` store is ambiguous (equal scores), so
the edge stays unresolved with both candidates recorded. -/
theorem claim_C1_witness :
    resolveEdge exAmbStore.nodes (buildSymbolIndex exAmbStore.nodes) exCallEdge =
      { resolved := false, ambiguous := true, targetId := none,
        candidates := some ["helper (src/a.ts)", "helper (src/b.ts)"] } := by
  have h := claim_C1_ambiguity_gap exAmbStore exCallEdge "helper" rfl (by decide)
    exCaller (by decide) (by decide)
  rw [h.2.2]
  decide

/-- A property of node/edge output pairs preserved by a fold is enjoyed by
the fold's result. -/
theorem foldl_pair_inv {α : Type}
    (step : List GraphNode × List GraphEdge → α → List GraphNode × List GraphEdge)
    (P : List GraphNode × List GraphEdge → Prop)
    (hstep : ∀ acc a, P acc → P (step acc a)) :
    ∀ (l : List α) (acc : List GraphNode × List GraphEdge),
      P acc → P (l.foldl step acc) := by
  intro l
  induction l with
  | nil => intro acc h; exact h
  | cons a rest ih => intro acc h; exact ih _ (hstep acc a h)

/-- Counterexample for C5: the Python extractor links the `import` node for
`import os` to the file by an edge of type `imports`, not `contains`. -/
theorem claim_C5_counterexample :
    ¬ (∀ n ∈ (pyParseImport osImportNode "m.py" "file_1").1,
        ∃ e ∈ (pyParseImport osImportNode "m.py" "file_1").2,
          e.type = "contains" ∧ e.sourceId = "file_1" ∧ e.targetId = n.id) := by
  decide

/-- C5 (amended): every import node is linked from the file node, but the
edge type differs per extractor: the TS/JS extractor emits `contains` edges,
while the Python and Java extractors emit `imports` edges. -/
theorem claim_C5_amended :
    (∀ fp isJS fid decls, ∀ n ∈ (tsParseImports fp isJS fid decls).1,
      ∃ e ∈ (tsParseImports fp isJS fid decls).2,
        e.type = "contains" ∧ e.sourceId = fid ∧ e.targetId = n.id) ∧
    (∀ node fp pid, ∀ n ∈ (pyParseImport node fp pid).1,
      ∃ e ∈ (pyParseImport node fp pid).2,
        e.type = "imports" ∧ e.sourceId = pid ∧ e.targetId = n.id) ∧
    (∀ node fp pid, ∀ n ∈ (pyParseFromImport node fp pid).1,
      ∃ e ∈ (pyParseFromImport node fp pid).2,
        e.type = "imports" ∧ e.sourceId = pid ∧ e.targetId = n.id) ∧
    (∀ decl fp fid, ∀ n ∈ (javaParseImport decl fp fid).1,
      ∃ e ∈ (javaParseImport decl fp fid).2,
        e.type = "imports" ∧ e.sourceId = fid ∧ e.targetId = n.id) := by
  refine ⟨?_, ?_, ?_, ?_⟩
  · intro fp isJS fid decls
    unfold tsParseImports
    refine foldl_pair_inv _
      (fun out => ∀ n ∈ out.1, ∃ e ∈ out.2,
        e.type = "contains" ∧ e.sourceId = fid ∧ e.targetId = n.id)
      ?_ decls ([], []) ?_
    · intro acc d hacc n hn
      rcases List.mem_append.mp hn with hold | hnew
      · obtain ⟨e, he, hprop⟩ := hacc n hold
        exact ⟨e, List.mem_append.mpr (Or.inl he), hprop⟩
      · simp at hnew
        refine ⟨createEdge fid n.id "contains", ?_, rfl, rfl, rfl⟩
        rw [hnew]
        simp
    · intro n hn
      simp at hn
  · intro node fp pid
    unfold pyParseImport
    refine foldl_pair_inv _
      (fun out => ∀ n ∈ out.1, ∃ e ∈ out.2,
        e.type = "imports" ∧ e.sourceId = pid ∧ e.targetId = n.id)
      ?_ (pyCollectNames node.childList) ([], []) ?_
    · intro acc d hacc n hn
      rcases List.mem_append.mp hn with hold | hnew
      · obtain ⟨e, he, hprop⟩ := hacc n hold
        exact ⟨e, List.mem_append.mpr (Or.inl he), hprop⟩
      · simp at hnew
        refine ⟨createEdge pid n.id "imports", ?_, rfl, rfl, rfl⟩
        rw [hnew]
        simp
    · intro n hn
      simp at hn
  · intro node fp pid n hn
    simp only [pyParseFromImport, List.mem_singleton] at hn
    refine ⟨createEdge pid n.id "imports", ?_, rfl, rfl, rfl⟩
    rw [hn]
    simp [pyParseFromImport]
  · intro decl fp fid n hn
    unfold javaParseImport at hn ⊢
    generalize hq : extractFullyQualifiedName decl = q at hn ⊢
    cases q with
    | none => simp at hn
    | some importName =>
      simp at hn
      refine ⟨createEdge fid n.id "imports", ?_, rfl, rfl, rfl⟩
      rw [hn]
      simp

/-- `applyOutcome` never touches the `nodes` table. -/
theorem applyOutcome_nodes (st : Store) (e : GraphEdge) (o : ResolveOutcome) :
    (applyOutcome st e o).nodes = st.nodes := by
  unfold applyOutcome
  split
  · unfold updateEdgeTarget
    cases st.edges.find? (fun x => x.id == e.id) <;> rfl
  · split
    · rfl
    · rfl

/-- Folding resolution outcomes never touches the `nodes` table. -/
theorem foldl_applyOutcome_nodes (nodes : List GraphNode) (idx : SymbolIndex) :
    ∀ (W : List GraphEdge) (st : Store),
      (W.foldl (fun st e => applyOutcome st e (resolveEdge nodes idx e)) st).nodes =
        st.nodes := by
  intro W
  induction W with
  | nil => intro st; rfl
  | cons w rest ih =>
    intro st
    rw [List.foldl_cons, ih, applyOutcome_nodes]

/-- `resolve()` never touches the `nodes` table. -/
theorem resolveStore_nodes (s : Store) : (resolveStore s).nodes = s.nodes := by
  unfold resolveStore
  exact foldl_applyOutcome_nodes s.nodes (buildSymbolIndex s.nodes)
    (getUnresolvedEdges s) s

/-- `addToIndex` only ever stores entries that were already in the index or
the entry being added. -/
theorem addToIndex_good (nodes : List GraphNode) (idx : SymbolIndex)
    (key : String) (entry : SymbolEntry)
    (hidx : ∀ p ∈ idx, ∀ ent ∈ p.2, EntryFromNodes nodes ent)
    (hent : EntryFromNodes nodes entry) :
    ∀ p ∈ addToIndex idx key entry, ∀ ent ∈ p.2, EntryFromNodes nodes ent := by
  unfold addToIndex
  cases idx.find? (fun p => p.1 == key) with
  | none =>
    intro p hp ent hmem
    rcases List.mem_append.mp hp with hold | hnew
    · exact hidx p hold ent hmem
    · simp at hnew
      rw [hnew] at hmem
      simp at hmem
      rw [hmem]
      exact hent
  | some q =>
    intro p hp ent hmem
    obtain ⟨p₀, hp₀, rfl⟩ := List.mem_map.mp hp
    by_cases hk : (p₀.1 == key) = true
    · rw [if_pos hk] at hmem
      by_cases hdup : p₀.2.any (fun e => e.nodeId == entry.nodeId)
      · rw [if_pos hdup] at hmem
        exact hidx p₀ hp₀ ent hmem
      · rw [if_neg hdup] at hmem
        rcases List.mem_append.mp hmem with hold | hnew
        · exact hidx p₀ hp₀ ent hold
        · simp at hnew
          rw [hnew]
          exact hent
    · rw [if_neg hk] at hmem
      exact hidx p₀ hp₀ ent hmem

/-- Folding `addToIndex` over a key list preserves index goodness. -/
theorem foldl_addToIndex_good (nodes : List GraphNode) (entry : SymbolEntry)
    (hent : EntryFromNodes nodes entry) :
    ∀ (keys : List String) (idx : SymbolIndex),
      (∀ p ∈ idx, ∀ ent ∈ p.2, EntryFromNodes nodes ent) →
      ∀ p ∈ keys.foldl (fun idx k => addToIndex idx k entry) idx,
        ∀ ent ∈ p.2, EntryFromNodes nodes ent := by
  intro keys
  induction keys with
  | nil => intro idx h; exact h
  | cons k rest ih =>
    intro idx h
    rw [List.foldl_cons]
    exact ih _ (addToIndex_good nodes idx k entry h hent)

/-- Every entry of the symbol index carries the id of one of the indexed
nodes. -/
theorem buildSymbolIndex_good (nodes : List GraphNode) :
    ∀ p ∈ buildSymbolIndex nodes, ∀ ent ∈ p.2, EntryFromNodes nodes ent := by
  unfold buildSymbolIndex
  have main : ∀ (ns : List GraphNode), (∀ x ∈ ns, x ∈ nodes) →
      ∀ (idx : SymbolIndex), (∀ p ∈ idx, ∀ ent ∈ p.2, EntryFromNodes nodes ent) →
      ∀ p ∈ ns.foldl (fun idx n =>
          if n.type == "file" || n.type == "import" then idx
          else (indexKeysOf n).foldl (fun idx k => addToIndex idx k (entryOfNode n)) idx)
        idx,
      ∀ ent ∈ p.2, EntryFromNodes nodes ent := by
    intro ns
    induction ns with
    | nil => intro _ idx h; exact h
    | cons n rest ih =>
      intro hsub idx h
      rw [List.foldl_cons]
      refine ih (fun x hx => hsub x (List.mem_cons_of_mem _ hx)) _ ?_
      by_cases hskip : (n.type == "file" || n.type == "import") = true
      · rw [if_pos hskip]; exact h
      · rw [if_neg hskip]
        exact foldl_addToIndex_good nodes (entryOfNode n)
          ⟨n, hsub n (List.mem_cons_self _ _), rfl⟩ (indexKeysOf n) idx h
  exact main nodes (fun x hx => hx) [] (by intro p hp; simp at hp)

/-- Entries returned by index lookup are good. -/
theorem idxLookup_good (nodes : List GraphNode) (key : String) :
    ∀ ent ∈ idxLookup (buildSymbolIndex nodes) key, EntryFromNodes nodes ent := by
  intro ent hent
  unfold idxLookup at hent
  cases hf : (buildSymbolIndex nodes).find? (fun p => p.1 == key) with
  | none => rw [hf] at hent; simp at hent
  | some p =>
    rw [hf] at hent
    exact buildSymbolIndex_good nodes p (List.mem_of_find?_eq_some hf) ent hent

/-- `pushUnique` folds preserve goodness. -/
theorem foldl_pushUnique_good (nodes : List GraphNode) :
    ∀ (ms acc : List SymbolEntry),
      (∀ x ∈ acc, EntryFromNodes nodes x) → (∀ x ∈ ms, EntryFromNodes nodes x) →
      ∀ x ∈ ms.foldl pushUnique acc, EntryFromNodes nodes x := by
  intro ms
  induction ms with
  | nil => intro acc hacc _ x hx; exact hacc x hx
  | cons m rest ih =>
    intro acc hacc hms
    rw [List.foldl_cons]
    refine ih _ ?_ (fun x hx => hms x (List.mem_cons_of_mem _ hx))
    intro x hx
    unfold pushUnique at hx
    by_cases hdup : acc.any (fun c => c.nodeId == m.nodeId)
    · rw [if_pos hdup] at hx; exact hacc x hx
    · rw [if_neg hdup] at hx
      rcases List.mem_append.mp hx with hold | hnew
      · exact hacc x hold
      · simp at hnew
        rw [hnew]
        exact hms m (List.mem_cons_self _ _)

/-- Every candidate found for an edge carries the id of one of the store's
nodes. -/
theorem findCandidates_good (nodes : List GraphNode) (imports : List ImportInfo)
    (tn : String) (src : GraphNode) (ety : String) :
    ∀ c ∈ findCandidates (buildSymbolIndex nodes) imports tn src ety,
      EntryFromNodes nodes c := by
  intro c hc
  unfold findCandidates at hc
  have hbase : ∀ x ∈ idxLookup (buildSymbolIndex nodes) (cleanTargetName tn),
      EntryFromNodes nodes x := idxLookup_good nodes _
  have hstep1 : ∀ x ∈
      (if strIncludes (cleanTargetName tn) "." = true then
        let parts := jsSplit (cleanTargetName tn) "."
        let lastPart := (parts.getLast?).getD ""
        let candidates := (idxLookup (buildSymbolIndex nodes) lastPart).foldl pushUnique
          (idxLookup (buildSymbolIndex nodes) (cleanTargetName tn))
        if parts.length ≥ 2 then
          let classMethod := (parts.getD (parts.length - 2) "") ++ "." ++ lastPart
          (idxLookup (buildSymbolIndex nodes) classMethod).foldl pushUnique candidates
        else candidates
      else idxLookup (buildSymbolIndex nodes) (cleanTargetName tn)),
      EntryFromNodes nodes x := by
    by_cases hdot : strIncludes (cleanTargetName tn) "." = true
    · rw [if_pos hdot]
      dsimp only
      by_cases hlen : (jsSplit (cleanTargetName tn) ".").length ≥ 2
      · rw [if_pos hlen]
        refine foldl_pushUnique_good nodes _ _ ?_ (idxLookup_good nodes _)
        exact foldl_pushUnique_good nodes _ _ hbase (idxLookup_good nodes _)
      · rw [if_neg hlen]
        exact foldl_pushUnique_good nodes _ _ hbase (idxLookup_good nodes _)
    · rw [if_neg hdot]
      exact hbase
  have hstep2 : ∀ (imps : List ImportInfo) (acc : List SymbolEntry),
      (∀ x ∈ acc, EntryFromNodes nodes x) →
      ∀ x ∈ imps.foldl
        (fun candidates imp =>
          imp.namedImports.foldl
            (fun candidates namedImport =>
              let importedAs := (namedImport.alias?).getD namedImport.name
              if cleanTargetName tn == importedAs ||
                  strStartsWith (cleanTargetName tn) (importedAs ++ ".") then
                ((idxLookup (buildSymbolIndex nodes) namedImport.name).filter
                  (fun m => moduleMatches m.filePath imp.moduleSpecifier
                    src.filePath)).foldl pushUnique candidates
              else candidates)
            candidates)
        acc,
      EntryFromNodes nodes x := by
    intro imps
    induction imps with
    | nil => intro acc hacc x hx; exact hacc x hx
    | cons imp rest ih =>
      intro acc hacc
      rw [List.foldl_cons]
      refine ih _ ?_
      have hinner : ∀ (nis : List NamedImport) (acc₂ : List SymbolEntry),
          (∀ x ∈ acc₂, EntryFromNodes nodes x) →
          ∀ x ∈ nis.foldl
            (fun candidates namedImport =>
              let importedAs := (namedImport.alias?).getD namedImport.name
              if cleanTargetName tn == importedAs ||
                  strStartsWith (cleanTargetName tn) (importedAs ++ ".") then
                ((idxLookup (buildSymbolIndex nodes) namedImport.name).filter
                  (fun m => moduleMatches m.filePath imp.moduleSpecifier
                    src.filePath)).foldl pushUnique candidates
              else candidates)
            acc₂,
          EntryFromNodes nodes x := by
        intro nis
        induction nis with
        | nil => intro acc₂ hacc₂ x hx; exact hacc₂ x hx
        | cons ni nrest nih =>
          intro acc₂ hacc₂
          rw [List.foldl_cons]
          refine nih _ ?_
          dsimp only
          by_cases hcond : (cleanTargetName tn == (ni.alias?).getD ni.name ||
              strStartsWith (cleanTargetName tn) ((ni.alias?).getD ni.name ++ ".")) = true
          · rw [if_pos hcond]
            refine foldl_pushUnique_good nodes _ _ hacc₂ ?_
            intro x hx
            exact idxLookup_good nodes ni.name x (List.mem_of_mem_filter hx)
          · rw [if_neg hcond]
            exact hacc₂
      exact hinner imp.namedImports acc hacc
  exact hstep2 imports _ hstep1 c (List.mem_of_mem_filter hc)

/-- `resolveEdge` reads only the edge's `targetName`, `sourceId` and
`type`. -/
theorem resolveEdge_congr (nodes : List GraphNode) (idx : SymbolIndex)
    (e₁ e₂ : GraphEdge)
    (h1 : e₁.metadata.targetName = e₂.metadata.targetName)
    (h2 : e₁.sourceId = e₂.sourceId) (h3 : e₁.type = e₂.type) :
    resolveEdge nodes idx e₁ = resolveEdge nodes idx e₂ := by
  unfold resolveEdge
  rw [h1, h2, h3]

/-- A resolved outcome targets the id of one of the store's nodes. -/
theorem resolveEdge_resolved_target (nodes : List GraphNode) (e : GraphEdge)
    (hres : (resolveEdge nodes (buildSymbolIndex nodes) e).resolved = true) :
    ∃ n ∈ nodes,
      (resolveEdge nodes (buildSymbolIndex nodes) e).targetId = some n.id := by
  unfold resolveEdge at hres ⊢
  cases htn : e.metadata.targetName with
  | none => rw [htn] at hres; simp at hres
  | some tn =>
    rw [htn] at hres
    dsimp only at hres ⊢
    by_cases hempty : (tn == "") = true
    · rw [if_pos hempty] at hres; simp at hres
    · rw [if_neg hempty] at hres ⊢
      cases hsrc : nodes.find? (fun n => n.id == e.sourceId) with
      | none => rw [hsrc] at hres; simp at hres
      | some src =>
        rw [hsrc] at hres
        dsimp only at hres ⊢
        by_cases h0 : (findCandidates (buildSymbolIndex nodes)
            (fileImportsOf nodes src.filePath) tn src e.type).length = 0
        · rw [if_pos h0] at hres; simp at hres
        · rw [if_neg h0] at hres ⊢
          by_cases h1 : (findCandidates (buildSymbolIndex nodes)
              (fileImportsOf nodes src.filePath) tn src e.type).length = 1
          · rw [if_pos h1] at hres ⊢
            cases hcs : findCandidates (buildSymbolIndex nodes)
                (fileImportsOf nodes src.filePath) tn src e.type with
            | nil => rw [hcs] at h1; simp at h1
            | cons c rest =>
              obtain ⟨n, hn, hid⟩ := findCandidates_good nodes
                (fileImportsOf nodes src.filePath) tn src e.type c
                (hcs ▸ List.mem_cons_self _ _)
              exact ⟨n, hn, by simp [hid]⟩
          · rw [if_neg h1] at hres ⊢
            cases hrk : rankCandidates (fileImportsOf nodes src.filePath)
                (findCandidates (buildSymbolIndex nodes)
                  (fileImportsOf nodes src.filePath) tn src e.type) src tn with
            | nil => rw [hrk] at hres; simp at hres
            | cons r0 tail =>
              cases tail with
              | nil => rw [hrk] at hres; simp at hres
              | cons r1 rest =>
                rw [hrk] at hres
                dsimp only at hres ⊢
                by_cases hgap : r1.score + 10 < r0.score
                · rw [if_pos hgap]
                  have hmem : r0 ∈ rankCandidates (fileImportsOf nodes src.filePath)
                      (findCandidates (buildSymbolIndex nodes)
                        (fileImportsOf nodes src.filePath) tn src e.type) src tn := by
                    rw [hrk]; exact List.mem_cons_self _ _
                  have hperm := List.perm_insertionSort rankRel
                    (((findCandidates (buildSymbolIndex nodes)
                      (fileImportsOf nodes src.filePath) tn src e.type).map (fun c =>
                        ({ entry := c,
                           score := calculateScore (fileImportsOf nodes src.filePath) c src tn } : ScoredEntry))))
                  have hmem' : r0 ∈ ((findCandidates (buildSymbolIndex nodes)
                      (fileImportsOf nodes src.filePath) tn src e.type).map (fun c =>
                        ({ entry := c,
                           score := calculateScore (fileImportsOf nodes src.filePath) c src tn } : ScoredEntry))) :=
                    hperm.mem_iff.mp hmem
                  obtain ⟨c, hc, hcr⟩ := List.mem_map.mp hmem'
                  obtain ⟨n, hn, hid⟩ := findCandidates_good nodes
                    (fileImportsOf nodes src.filePath) tn src e.type c hc
                  refine ⟨n, hn, ?_⟩
                  rw [← hcr]
                  simp [hid]
                · rw [if_neg hgap] at hres
                  simp at hres

/-- `transformEdge` keeps the edge's id, endpoints source, type and
`targetName`. -/
theorem transformEdge_fields (nodes : List GraphNode) (idx : SymbolIndex)
    (e : GraphEdge) :
    (transformEdge nodes idx e).id = e.id ∧
    (transformEdge nodes idx e).sourceId = e.sourceId ∧
    (transformEdge nodes idx e).type = e.type ∧
    (transformEdge nodes idx e).metadata.targetName = e.metadata.targetName := by
  unfold transformEdge
  dsimp only
  by_cases h1 : isUnresolvedRow e = true <;>
    by_cases h2 : (resolveEdge nodes idx e).resolved = true <;>
    by_cases h3 : (resolveEdge nodes idx e).ambiguous = true <;>
    simp [h1, h2, h3]

/-- Applying the per-edge resolution effect twice is the same as applying it
once, provided no node id looks like a `ref:` placeholder. -/
theorem transformEdge_idem (nodes : List GraphNode) (e : GraphEdge)
    (hnod : ∀ n ∈ nodes, likeRef n.id = false) :
    transformEdge nodes (buildSymbolIndex nodes)
      (transformEdge nodes (buildSymbolIndex nodes) e) =
    transformEdge nodes (buildSymbolIndex nodes) e := by
  by_cases hsel : isUnresolvedRow e = true
  · by_cases hres : (resolveEdge nodes (buildSymbolIndex nodes) e).resolved = true
    · -- resolved: the rewritten row no longer selects
      have h1 : transformEdge nodes (buildSymbolIndex nodes) e = { e with targetId := ((resolveEdge nodes (buildSymbolIndex nodes) e).targetId).getD "", metadata := { e.metadata with unresolved := some false, resolvedFrom := some e.targetId } } := by
        unfold transformEdge
        rw [if_pos hsel]
        dsimp only
        rw [if_pos hres]
      obtain ⟨n, hn, htid⟩ := resolveEdge_resolved_target nodes e hres
      have hlike : likeRef (((resolveEdge nodes (buildSymbolIndex nodes) e).targetId).getD "") = false := by
        rw [htid]
        exact hnod n hn
      rw [h1]
      have hsel' : ¬ (isUnresolvedRow { e with targetId := ((resolveEdge nodes (buildSymbolIndex nodes) e).targetId).getD "", metadata := { e.metadata with unresolved := some false, resolvedFrom := some e.targetId } } = true) := by
        unfold isUnresolvedRow
        simp [hlike]
      unfold transformEdge
      rw [if_neg hsel']
    · by_cases hamb : (resolveEdge nodes (buildSymbolIndex nodes) e).ambiguous = true
      · -- ambiguous: the second pass recomputes the same candidates
        have h1 : transformEdge nodes (buildSymbolIndex nodes) e = { e with metadata := { e.metadata with ambiguousCandidates := some (((resolveEdge nodes (buildSymbolIndex nodes) e).candidates).getD []) } } := by
          unfold transformEdge
          rw [if_pos hsel]
          dsimp only
          rw [if_neg hres, if_pos hamb]
        rw [h1]
        have hsel' : isUnresolvedRow { e with metadata := { e.metadata with ambiguousCandidates := some (((resolveEdge nodes (buildSymbolIndex nodes) e).candidates).getD []) } } = true := by
          unfold isUnresolvedRow at hsel ⊢
          simpa using hsel
        have hsame : resolveEdge nodes (buildSymbolIndex nodes) { e with metadata := { e.metadata with ambiguousCandidates := some (((resolveEdge nodes (buildSymbolIndex nodes) e).candidates).getD []) } } = resolveEdge nodes (buildSymbolIndex nodes) e :=
          resolveEdge_congr _ _ _ _ rfl rfl rfl
        unfold transformEdge
        rw [if_pos hsel']
        dsimp only
        rw [hsame, if_neg hres, if_pos hamb]
      · -- neither resolved nor ambiguous: the row is untouched
        have h1 : transformEdge nodes (buildSymbolIndex nodes) e = e := by
          unfold transformEdge
          rw [if_pos hsel]
          dsimp only
          rw [if_neg hres, if_neg hamb]
        rw [h1, h1]
  · have h1 : transformEdge nodes (buildSymbolIndex nodes) e = e := by
      unfold transformEdge
      rw [if_neg hsel]
    rw [h1, h1]

/-- `applyOutcome` leaves a leading edge row alone when its id differs from
the worklist edge's id. -/
theorem applyOutcome_skip (nds : List GraphNode) (x : GraphEdge)
    (t : List GraphEdge) (w : GraphEdge) (o : ResolveOutcome)
    (hx : (x.id == w.id) = false) :
    (applyOutcome ⟨nds, x :: t⟩ w o).edges =
      x :: (applyOutcome ⟨nds, t⟩ w o).edges := by
  unfold applyOutcome
  by_cases hres : o.resolved = true
  · rw [if_pos hres, if_pos hres]
    unfold updateEdgeTarget
    dsimp only
    rw [List.find?_cons_of_neg _ (by simp [hx])]
    cases hfind : t.find? (fun e => e.id == w.id) with
    | none => rfl
    | some e0 =>
      dsimp only
      rw [List.map_cons]
      congr 1
      rw [if_neg (by simp [hx])]
  · rw [if_neg hres, if_neg hres]
    by_cases hamb : o.ambiguous = true
    · rw [if_pos hamb, if_pos hamb]
      unfold updateEdgeMetadata
      dsimp only
      rw [List.map_cons]
      congr 1
      rw [if_neg (by simp [hx])]
    · rw [if_neg hamb, if_neg hamb]

/-- A store built from explicit components is reassembled unchanged by
`applyOutcome` up to its edge list. -/
theorem applyOutcome_eta (nds : List GraphNode) (l : List GraphEdge)
    (w : GraphEdge) (o : ResolveOutcome) :
    applyOutcome ⟨nds, l⟩ w o = ⟨nds, (applyOutcome ⟨nds, l⟩ w o).edges⟩ := by
  have h := applyOutcome_nodes ⟨nds, l⟩ w o
  cases happ : applyOutcome ⟨nds, l⟩ w o with
  | mk ns es =>
    rw [happ] at h
    simp at h ⊢
    exact h

/-- Folding the per-edge outcomes over a worklist none of whose ids matches
a leading row leaves that row in place. -/
theorem foldl_applyOutcome_skip (nodes : List GraphNode) (idx : SymbolIndex)
    (nds : List GraphNode) (x : GraphEdge) :
    ∀ (W : List GraphEdge), (∀ w ∈ W, (x.id == w.id) = false) →
    ∀ (t : List GraphEdge),
    (W.foldl (fun st e => applyOutcome st e (resolveEdge nodes idx e))
        ⟨nds, x :: t⟩).edges =
      x :: (W.foldl (fun st e => applyOutcome st e (resolveEdge nodes idx e))
        ⟨nds, t⟩).edges := by
  intro W
  induction W with
  | nil => intro _ t; rfl
  | cons w rest ih =>
    intro hW t
    have hx : (x.id == w.id) = false := hW w (List.mem_cons_self _ _)
    rw [List.foldl_cons, List.foldl_cons]
    rw [applyOutcome_eta nds (x :: t) w _, applyOutcome_eta nds t w _,
      applyOutcome_skip nds x t w (resolveEdge nodes idx w) hx]
    exact ih (fun w' hw' => hW w' (List.mem_cons_of_mem _ hw')) _

/-- One worklist step on a store whose leading row is the worklist edge
itself rewrites that row to `transformEdge` of it and leaves the rest. -/
theorem applyOutcome_head (nodes : List GraphNode) (idx : SymbolIndex)
    (nds : List GraphNode) (e : GraphEdge) (t : List GraphEdge)
    (ht : ∀ w ∈ t, (w.id == e.id) = false)
    (hsel : isUnresolvedRow e = true) :
    (applyOutcome ⟨nds, e :: t⟩ e (resolveEdge nodes idx e)).edges =
      transformEdge nodes idx e :: t := by
  have htail : ∀ (f : GraphEdge → GraphEdge),
      (∀ w ∈ t, (w.id == e.id) = false → f w = w) → t.map f = t := by
    intro f hf
    have h1 : t.map f = t.map id :=
      List.map_congr_left (fun w hw => hf w hw (ht w hw))
    rw [h1, List.map_id]
  by_cases hres : (resolveEdge nodes idx e).resolved = true
  · have htr : transformEdge nodes idx e = { e with targetId := ((resolveEdge nodes idx e).targetId).getD "", metadata := { e.metadata with unresolved := some false, resolvedFrom := some e.targetId } } := by
      unfold transformEdge
      rw [if_pos hsel]
      dsimp only
      rw [if_pos hres]
    unfold applyOutcome
    rw [if_pos hres]
    unfold updateEdgeTarget
    dsimp only
    rw [List.find?_cons_of_pos _ (by simp)]
    dsimp only
    rw [List.map_cons, htr]
    congr 1
    · rw [if_pos (by simp), if_neg (by simp)]
    · exact htail _ (fun w hw hwid => by rw [if_neg (by simp [hwid])])
  · by_cases hamb : (resolveEdge nodes idx e).ambiguous = true
    · have htr : transformEdge nodes idx e = { e with metadata := { e.metadata with ambiguousCandidates := some (((resolveEdge nodes idx e).candidates).getD []) } } := by
        unfold transformEdge
        rw [if_pos hsel]
        dsimp only
        rw [if_neg hres, if_pos hamb]
      unfold applyOutcome
      rw [if_neg hres, if_pos hamb]
      unfold updateEdgeMetadata
      dsimp only
      rw [List.map_cons, htr]
      congr 1
      · rw [if_pos (by simp)]
      · exact htail _ (fun w hw hwid => by rw [if_neg (by simp [hwid])])
    · have htr : transformEdge nodes idx e = e := by
        unfold transformEdge
        rw [if_pos hsel]
        dsimp only
        rw [if_neg hres, if_neg hamb]
      unfold applyOutcome
      rw [if_neg hres, if_neg hamb, htr]

/-- Folding the per-edge outcomes over the unresolved rows of an edge list
with pairwise-distinct ids rewrites every row pointwise by `transformEdge`. -/
theorem foldl_resolve_filter_map (nodes : List GraphNode) (idx : SymbolIndex)
    (nds : List GraphNode) :
    ∀ (l : List GraphEdge), (l.map (fun e => e.id)).Nodup →
    ((l.filter isUnresolvedRow).foldl
        (fun st e => applyOutcome st e (resolveEdge nodes idx e))
        ⟨nds, l⟩).edges = l.map (transformEdge nodes idx) := by
  intro l
  induction l with
  | nil => intro _; rfl
  | cons e t ih =>
    intro hnd
    rw [List.map_cons, List.nodup_cons] at hnd
    have hnotin : e.id ∉ t.map (fun e => e.id) := hnd.1
    have hndt : (t.map (fun e => e.id)).Nodup := hnd.2
    have ht : ∀ w ∈ t, (w.id == e.id) = false := by
      intro w hw
      rw [beq_eq_false_iff_ne]
      intro hcon
      exact hnotin (hcon ▸ List.mem_map_of_mem _ hw)
    have ht' : ∀ w ∈ t.filter isUnresolvedRow, (e.id == w.id) = false := by
      intro w hw
      rw [beq_eq_false_iff_ne]
      intro hcon
      have := ht w (List.mem_of_mem_filter hw)
      rw [beq_eq_false_iff_ne] at this
      exact this hcon.symm
    by_cases hsel : isUnresolvedRow e = true
    · rw [List.filter_cons_of_pos hsel, List.foldl_cons]
      rw [applyOutcome_eta nds (e :: t) e _,
        applyOutcome_head nodes idx nds e t ht hsel]
      have hskipW : ∀ w ∈ t.filter isUnresolvedRow,
          ((transformEdge nodes idx e).id == w.id) = false := by
        intro w hw
        rw [(transformEdge_fields nodes idx e).1]
        exact ht' w hw
      rw [foldl_applyOutcome_skip nodes idx nds (transformEdge nodes idx e)
        (t.filter isUnresolvedRow) hskipW t]
      rw [List.map_cons, ih hndt]
    · rw [List.filter_cons_of_neg hsel]
      rw [foldl_applyOutcome_skip nodes idx nds e
        (t.filter isUnresolvedRow) ht' t]
      rw [List.map_cons, ih hndt]
      have htr : transformEdge nodes idx e = e := by
        unfold transformEdge
        rw [if_neg hsel]
      rw [htr]

/-- With pairwise-distinct edge ids, one `resolve()` run is the pointwise
map of `transformEdge` over the edge table. -/
theorem resolveStore_edges_eq_map (s : Store)
    (hnd : (s.edges.map (fun e => e.id)).Nodup) :
    (resolveStore s).edges =
      s.edges.map (transformEdge s.nodes (buildSymbolIndex s.nodes)) := by
  have h := foldl_resolve_filter_map s.nodes (buildSymbolIndex s.nodes)
    s.nodes s.edges hnd
  unfold resolveStore getUnresolvedEdges
  exact h

/-- C6: running the resolver's `resolve()` pass twice in succession leaves
exactly the same edge table (ids, targetIds and metadata) as running it
once, for every store whose edge ids are pairwise distinct (the `edges`
table's primary key) and whose node ids do not look like `ref:`
placeholders (the shape of every generated node id). -/
theorem claim_C6_resolver_idempotent (s : Store)
    (hnd : (s.edges.map (fun e => e.id)).Nodup)
    (hnod : ∀ n ∈ s.nodes, likeRef n.id = false) :
    (resolveStore (resolveStore s)).edges = (resolveStore s).edges := by
  have h1 := resolveStore_edges_eq_map s hnd
  have hnodes := resolveStore_nodes s
  have hids : ((resolveStore s).edges.map (fun e => e.id)).Nodup := by
    rw [h1, List.map_map]
    have heq : s.edges.map ((fun e => e.id) ∘
        transformEdge s.nodes (buildSymbolIndex s.nodes)) =
        s.edges.map (fun e => e.id) :=
      List.map_congr_left (fun a _ => by
        simp only [Function.comp_apply]
        exact (transformEdge_fields s.nodes (buildSymbolIndex s.nodes) a).1)
    rw [heq]
    exact hnd
  have h2 := resolveStore_edges_eq_map (resolveStore s) hids
  rw [h2, hnodes, h1, List.map_map]
  refine List.map_congr_left ?_
  intro a _
  simp only [Function.comp_apply]
  exact transformEdge_idem s.nodes a hnod

theorem claim_C6_witness :
    (resolveStore (resolveStore exResStore)).edges =
      (resolveStore exResStore).edges :=
  claim_C6_resolver_idempotent exResStore (by decide) (by decide)

theorem claim_C5_witness :
    ((pyParseImport osImportNode "m.py" "file_1").2.any
      (fun e => e.type == "imports" && e.sourceId == "file_1")) = true := by
  have h := claim_C5_amended.2.1 osImportNode "m.py" "file_1"
    (createNode "python" "m.py" "import" "os" 1 1 { rest := [("type", "module")] })
    (by decide)
  obtain ⟨e, he, h1, h2, _⟩ := h
  rw [List.any_eq_true]
  exact ⟨e, he, by simp [h1, h2]⟩

/-- `Int.fdiv` on natural-number casts is natural division. -/
theorem fdiv_natCast (a b : Nat) :
    Int.fdiv (a : Int) (b : Int) = ((a / b : Nat) : Int) := by
  rw [Int.fdiv_eq_tdiv (by positivity) (by positivity)]
  exact (Int.ofNat_tdiv a b).symm

/-- A JS `slice(0, k)` never lengthens the string. -/
theorem jsSliceTo_length_le (s : String) (k : Int) :
    (jsSliceTo s k).length ≤ s.length := by
  show (s.toList.take _).length ≤ s.toList.length
  rw [List.length_take]
  exact min_le_right _ _

/-- For a nonnegative end index, JS `slice(0, k)` returns at most `k`
characters. -/
theorem jsSliceTo_length_le_idx (s : String) (k : Int) (hk : 0 ≤ k) :
    ((jsSliceTo s k).length : Int) ≤ k := by
  have h : (jsSliceTo s k).length =
      (s.toList.take (if k < 0 then max ((s.toList.length : Int) + k) 0
        else min k (s.toList.length : Int)).toNat).length := rfl
  rw [h, List.length_take]
  rw [if_neg (by omega)]
  have h2 : (min k (s.toList.length : Int)).toNat ≤ k.toNat :=
    Int.toNat_le_toNat (min_le_left _ _)
  calc ((min (min k (s.toList.length : Int)).toNat s.toList.length : Nat) : Int)
      ≤ ((min k (s.toList.length : Int)).toNat : Int) := by
        exact_mod_cast min_le_left _ _
    _ ≤ (k.toNat : Int) := by exact_mod_cast h2
    _ = k := Int.toNat_of_nonneg hk

/-- `jsLastIndexOf` is at least `-1` and below the string length. -/
theorem jsLastIndexOf_bounds (s : String) (c : Char) :
    -1 ≤ jsLastIndexOf s c ∧ jsLastIndexOf s c < (s.length : Int) := by
  unfold jsLastIndexOf
  cases hl : (s.toList.enum.filter (fun p => p.2 == c)).getLast? with
  | none =>
    dsimp only
    refine ⟨le_refl _, ?_⟩
    have : (0 : Int) ≤ (s.length : Int) := by positivity
    omega
  | some p =>
    have hmem : p ∈ s.toList.enum.filter (fun q => q.2 == c) :=
      List.mem_of_mem_getLast? hl
    have hmem' : p ∈ s.toList.enum := (List.mem_filter.mp hmem).1
    obtain ⟨i, x⟩ := p
    dsimp only
    have hget := List.mk_mem_enum_iff_getElem?.mp hmem'
    have hlt : i < s.toList.length := by
      by_contra hge
      rw [List.getElem?_eq_none (by omega)] at hget
      exact Option.noConfusion hget
    have hlen : s.toList.length = s.length := rfl
    refine ⟨by omega, ?_⟩
    rw [← hlen]
    exact_mod_cast hlt

/-- A string ends with any suffix appended to it. -/
theorem strEndsWith_append (a b : String) :
    strEndsWith (a ++ b) b = true := by
  unfold strEndsWith
  have h1 : (a ++ b).toList = a.toList ++ b.toList := toList_append a b
  rw [h1, List.reverse_append, ← List.length_reverse b.toList,
    List.take_left]
  simp

/-- With at least four tokens of budget, `truncateToTokenLimit` returns text
whose token estimate fits the budget. -/
theorem truncate_est_le (text : String) (B : Int) (hB : 4 ≤ B) :
    (estimateTokens (truncateToTokenLimit text B).1 : Int) ≤ B := by
  by_cases h : (estimateTokens text : Int) ≤ B
  · unfold truncateToTokenLimit
    dsimp only
    rw [if_pos h]
    exact h
  · have key : ∀ t : String, (t.length : Int) ≤ (B - 4) * 4 →
        (estimateTokens (t ++ truncationIndicator) : Int) ≤ B := by
      intro t ht
      have hil : truncationIndicator.length = 16 := by decide
      have hlen : (t ++ truncationIndicator).length = t.length + 16 := by
        rw [String.length_append, hil]
      unfold estimateTokens
      rw [hlen, if_neg (by omega)]
      have hBnn : (0 : Int) ≤ B := by omega
      have hcast := Int.toNat_of_nonneg hBnn
      have htn : t.length + 16 ≤ 4 * B.toNat := by omega
      have h2 : (t.length + 16 + 3) / 4 ≤ B.toNat := by omega
      calc (((t.length + 16 + 3) / 4 : Nat) : Int) ≤ (B.toNat : Int) := by
            exact_mod_cast h2
        _ = B := hcast
    unfold truncateToTokenLimit
    dsimp only
    rw [if_neg h]
    dsimp only
    have hind : estimateTokens truncationIndicator = 4 := by decide
    rw [hind]
    simp only [Nat.cast_ofNat]
    have hcl : (0 : Int) ≤ (B - 4) * 4 := by
      have : (0 : Int) ≤ B - 4 := by omega
      positivity
    have hb1 : ((jsSliceTo text ((B - 4) * 4)).length : Int) ≤ (B - 4) * 4 :=
      jsSliceTo_length_le_idx _ _ hcl
    refine key _ ?_
    split
    · calc ((jsSliceTo (jsSliceTo text ((B - 4) * 4))
            (jsLastIndexOf (jsSliceTo text ((B - 4) * 4)) '\n')).length : Int)
          ≤ ((jsSliceTo text ((B - 4) * 4)).length : Int) := by
            exact_mod_cast jsSliceTo_length_le _ _
        _ ≤ (B - 4) * 4 := hb1
    · exact hb1

/-- When the text does not fit the budget, the truncated text carries the
truncation indicator as a suffix. -/
theorem truncate_marks (text : String) (B : Int)
    (h : ¬ (estimateTokens text : Int) ≤ B) :
    strEndsWith (truncateToTokenLimit text B).1 truncationIndicator = true := by
  unfold truncateToTokenLimit
  dsimp only
  rw [if_neg h]
  dsimp only
  exact strEndsWith_append _ _

/-- The import-symbol loop keeps its consumed-token count at zero or
strictly below the budget. -/
theorem importSymbolLoop_bound (s : Store) (fs : FileSystem) (tp : String)
    (budget : Int) :
    ∀ (syms : List String) (rc : Option String) (used : Int),
      (used = 0 ∨ used < budget) →
      ((importSymbolLoop s fs tp budget syms (rc, used)).2 = 0 ∨
       (importSymbolLoop s fs tp budget syms (rc, used)).2 < budget) := by
  intro syms
  induction syms with
  | nil => intro rc used h; exact h
  | cons sym rest ih =>
    intro rc used h
    have hgen : ∀ (p : Option String × Int), (p.2 = 0 ∨ p.2 < budget) →
        ((importSymbolLoop s fs tp budget rest p).2 = 0 ∨
         (importSymbolLoop s fs tp budget rest p).2 < budget) := by
      intro p hp
      obtain ⟨rc', u'⟩ := p
      exact ih rc' u' hp
    simp only [importSymbolLoop]
    apply hgen
    split
    · split
      · split
        · split
          · rename_i hlt
            exact Or.inr hlt
          · exact h
        · exact h
      · exact h
    · exact h

/-- The imports stage keeps its consumed-token count at zero or strictly
below the budget. -/
theorem importsStage_bound (s : Store) (fs : FileSystem) (tp : String)
    (budget : Int) :
    ∀ (nodes : List GraphNode) (used : Int),
      (used = 0 ∨ used < budget) →
      ((importsStage s fs tp budget nodes used).2 = 0 ∨
       (importsStage s fs tp budget nodes used).2 < budget) := by
  intro nodes
  induction nodes with
  | nil => intro used h; exact h
  | cons importNode rest ih =>
    intro used h
    simp only [importsStage]
    exact ih _ (importSymbolLoop_bound s fs tp budget _ none used h)

/-- The dependents stage keeps its consumed-token count at zero or strictly
below the budget. -/
theorem dependentsStage_bound (s : Store) (fs : FileSystem) (it : Bool)
    (budget : Int) :
    ∀ (edges : List GraphEdge) (used : Int),
      (used = 0 ∨ used < budget) →
      ((dependentsStage s fs it budget edges used).2 = 0 ∨
       (dependentsStage s fs it budget edges used).2 < budget) := by
  intro edges
  induction edges with
  | nil => intro used h; exact h
  | cons e rest ih =>
    intro used h
    simp only [dependentsStage]
    split
    · exact h
    · split
      · exact ih used h
      · split
        · exact ih used h
        · split
          · rename_i hlt
            exact ih _ (Or.inr hlt)
          · exact ih used h

/-- The related-types stage keeps its consumed-token count at zero or
strictly below the budget. -/
theorem typesStage_bound (s : Store) (fs : FileSystem) (tp : String)
    (budget : Int) :
    ∀ (edges : List GraphEdge) (used : Int),
      (used = 0 ∨ used < budget) →
      ((typesStage s fs tp budget edges used).2 = 0 ∨
       (typesStage s fs tp budget edges used).2 < budget) := by
  intro edges
  induction edges with
  | nil => intro used h; exact h
  | cons e rest ih =>
    intro used h
    simp only [typesStage]
    split
    · exact h
    · split
      · split
        · split
          · split
            · split
              · rename_i hlt
                exact ih _ (Or.inr hlt)
              · exact ih used h
            · exact ih used h
          · exact ih used h
        · exact ih used h
      · exact ih used h

/-- Budget safety of the context-assembler core: with an effective budget of
at least seven tokens the reported `tokenEstimate` fits the budget, and the
target content carries the truncation indicator whenever its character count
exceeds `maxTokens * 0.6 * 4`. -/
theorem editingContextCore_budget (s : Store) (fs : FileSystem) (fp : String)
    (task : Option String) (inc : Bool) (M : Int) (hM : 7 ≤ M) :
    (getEditingContextCore s fs fp task M inc).tokenEstimate ≤ M ∧
    (12 * M < 5 * ((readFileContent fs fp).length : Int) →
      strEndsWith (getEditingContextCore s fs fp task M inc).targetContent
        truncationIndicator = true) := by
  have hfd6 := Int.fdiv_add_fmod (6 * M) 10
  have hfm6a : 0 ≤ Int.fmod (6 * M) 10 := Int.fmod_nonneg (by omega) (by norm_num)
  have hfm6b : Int.fmod (6 * M) 10 < 10 := Int.fmod_lt_of_pos _ (by norm_num)
  have hB4 : 4 ≤ Int.fdiv (6 * M) 10 := by omega
  constructor
  · dsimp only [getEditingContextCore]
    have hE := truncate_est_le (readFileContent fs fp) (Int.fdiv (6 * M) 10) hB4
    set E := (estimateTokens
      (truncateToTokenLimit (readFileContent fs fp) (Int.fdiv (6 * M) 10)).1 : Int)
      with hEdef
    have hr1 : 0 ≤ M - E := by omega
    have hfd3 := Int.fdiv_add_fmod (3 * (M - E)) 10
    have hfm3a : 0 ≤ Int.fmod (3 * (M - E)) 10 :=
      Int.fmod_nonneg (by omega) (by norm_num)
    have hfm3b : Int.fmod (3 * (M - E)) 10 < 10 := Int.fmod_lt_of_pos _ (by norm_num)
    have hiu := importsStage_bound s fs fp (Int.fdiv (3 * (M - E)) 10)
      ((getFileContext s fp).nodes.filter (fun n => n.type == "import")) 0
      (Or.inl rfl)
    set IU := (importsStage s fs fp (Int.fdiv (3 * (M - E)) 10)
      ((getFileContext s fp).nodes.filter (fun n => n.type == "import")) 0).2
      with hIUdef
    have hr2 : 0 ≤ M - E - IU := by omega
    have hfd3d := Int.fdiv_add_fmod (3 * (M - E - IU)) 10
    have hfm3da : 0 ≤ Int.fmod (3 * (M - E - IU)) 10 :=
      Int.fmod_nonneg (by omega) (by norm_num)
    have hfm3db : Int.fmod (3 * (M - E - IU)) 10 < 10 :=
      Int.fmod_lt_of_pos _ (by norm_num)
    have hdu := dependentsStage_bound s fs inc (Int.fdiv (3 * (M - E - IU)) 10)
      (getFileContext s fp).incomingEdges 0 (Or.inl rfl)
    set DU := (dependentsStage s fs inc (Int.fdiv (3 * (M - E - IU)) 10)
      (getFileContext s fp).incomingEdges 0).2 with hDUdef
    have hr3 : 0 ≤ M - E - IU - DU := by omega
    have hfd5 := Int.fdiv_add_fmod (5 * (M - E - IU - DU)) 10
    have hfm5a : 0 ≤ Int.fmod (5 * (M - E - IU - DU)) 10 :=
      Int.fmod_nonneg (by omega) (by norm_num)
    have hfm5b : Int.fmod (5 * (M - E - IU - DU)) 10 < 10 :=
      Int.fmod_lt_of_pos _ (by norm_num)
    have htu := typesStage_bound s fs fp (Int.fdiv (5 * (M - E - IU - DU)) 10)
      (getFileContext s fp).outgoingEdges 0 (Or.inl rfl)
    set TU := (typesStage s fs fp (Int.fdiv (5 * (M - E - IU - DU)) 10)
      (getFileContext s fp).outgoingEdges 0).2 with hTUdef
    omega
  · intro hlen
    dsimp only [getEditingContextCore]
    apply truncate_marks
    intro hcon
    unfold estimateTokens at hcon
    by_cases h0 : (readFileContent fs fp).length = 0
    · rw [h0] at hlen
      simp at hlen
      omega
    · rw [if_neg h0] at hcon
      have h4 : (readFileContent fs fp).length ≤
          4 * (((readFileContent fs fp).length + 3) / 4) := by omega
      have h4' : ((readFileContent fs fp).length : Int) ≤
          4 * ((((readFileContent fs fp).length + 3) / 4 : Nat) : Int) := by
        exact_mod_cast h4
      omega

/-- Counterexample for C9: with `max_tokens = 1` on a 98-character
single-line file, the JS negative-slice path of `truncateToTokenLimit`
leaves a near-full target content, so the reported `token_estimate` is 25,
far above the budget of 1. -/
theorem claim_C9_counterexample :
    (getEditingContext { nodes := [], edges := [] } fs100 "src/t.ts" none
        (some 1) false).tokenEstimate = 25 ∧
    ¬ ((getEditingContext { nodes := [], edges := [] } fs100 "src/t.ts" none
        (some 1) false).tokenEstimate ≤ 1) := by
  constructor
  · decide
  · decide

/-- C9 (amended): for an explicit `max_tokens` of at least 7 the returned
`token_estimate` is at most `max_tokens` (for smaller budgets the JS
negative-slice path can overshoot, see the counterexample), the target-file
portion carries the truncation indicator whenever its character count
exceeds `max_tokens * 0.6 * 4`, and an omitted `max_tokens` behaves as the
default 8000. -/
theorem claim_C9_amended (s : Store) (fs : FileSystem) (fp : String)
    (task : Option String) (inc : Bool) (m : Nat) (hm : 7 ≤ m) :
    (getEditingContext s fs fp task (some m) inc).tokenEstimate ≤ (m : Int) ∧
    (12 * (m : Int) < 5 * ((readFileContent fs fp).length : Int) →
      strEndsWith (getEditingContext s fs fp task (some m) inc).targetContent
        truncationIndicator = true) ∧
    getEditingContext s fs fp task none inc =
      getEditingContext s fs fp task (some 8000) inc := by
  have hm0 : ¬ (m = 0) := by omega
  have hsome : getEditingContext s fs fp task (some m) inc =
      getEditingContextCore s fs fp task (m : Int) inc := by
    unfold getEditingContext
    dsimp only
    rw [if_neg hm0]
  have hM : (7 : Int) ≤ (m : Int) := by exact_mod_cast hm
  obtain ⟨h1, h2⟩ := editingContextCore_budget s fs fp task inc (m : Int) hM
  refine ⟨?_, ?_, ?_⟩
  · rw [hsome]
    exact h1
  · rw [hsome]
    exact h2
  · have hn : getEditingContext s fs fp task none inc =
        getEditingContextCore s fs fp task 8000 inc := by
      unfold getEditingContext
      dsimp only
    have h8 : getEditingContext s fs fp task (some 8000) inc =
        getEditingContextCore s fs fp task ((8000 : Nat) : Int) inc := by
      unfold getEditingContext
      dsimp only
      rw [if_neg (by norm_num)]
    rw [hn, h8]
    norm_num

theorem claim_C9_witness :
    (getEditingContext { nodes := [], edges := [] } [] "a.ts" none
      (some 7) false).tokenEstimate ≤ ((7 : Nat) : Int) :=
  (claim_C9_amended { nodes := [], edges := [] } [] "a.ts" none false 7
    (by decide)).1
